import Mathlib

/-!
subdomainstakeover: the fingerprint matcher and the scan driver

A shallow embedding of `subdmtakeover.go`.

The program depends on Go's standard library (`regexp`, `strings`, `fmt`, `net`,
`net/http`, `bufio`) and on `github.com/fatih/color`.  The parts of those libraries the
program relies on are modelled in the namespaces `regexp`, `strings`, `fmt` and `color`;
the network and standard input are parameters of the program (`Net`, `Stdin`).

Text is modelled as Lean `String`s, that is as sequences of Unicode scalar values: this is
the sequence of runes Go's `regexp` and `strings` packages read from a byte slice or string
(an invalid byte is read as the rune U+FFFD).
-/

namespace regexp

/-- The parse tree of a regular expression, after the operators of Go's
`regexp/syntax` package (`OpNoMatch`, `OpEmptyMatch`, `OpLiteral`, `OpAnyCharNotNL`,
`OpCapture`, `OpStar`, `OpPlus`, `OpQuest`, `OpConcat`, `OpAlternate`).  Concatenations
and alternations are binary and nested to the right. -/
inductive Pattern where
  | noMatch : Pattern
  | emptyMatch : Pattern
  | literal : Char → Pattern
  | anyCharNotNL : Pattern
  | capture : Pattern → Pattern
  | star : Pattern → Pattern
  | plus : Pattern → Pattern
  | quest : Pattern → Pattern
  | concat : Pattern → Pattern → Pattern
  | alternate : Pattern → Pattern → Pattern
  deriving DecidableEq, Repr

namespace Pattern

/-- The concatenation of a list of sub-expressions (`OpEmptyMatch` for none). -/
def concatAll : List Pattern → Pattern
  | [] => emptyMatch
  | [r] => r
  | r :: rs => concat r (concatAll rs)

/-- The alternation of a list of sub-expressions (`OpNoMatch` for none). -/
def alternateAll : List Pattern → Pattern
  | [] => noMatch
  | [r] => r
  | r :: rs => alternate r (alternateAll rs)

end Pattern

/-- One open level of the parser: the finished branches of the alternation being read
(latest first) and the items of the branch being read (latest first). -/
structure Frame where
  branches : List Pattern
  items : List Pattern

/-- The expression a level stands for once it is complete. -/
def Frame.close (f : Frame) : Pattern :=
  Pattern.alternateAll ((Pattern.concatAll f.items.reverse :: f.branches).reverse)

/-- The punctuation of ASCII: the characters a backslash turns into literals. -/
def isPunct (c : Char) : Bool :=
  c.toNat < 128 && !(c.isAlphanum)

/-- Applies a repetition operator to the latest item of a level; `none` when the level
has no item yet (Go: missing argument to repetition operator). -/
def Frame.repeatLast (op : Pattern → Pattern) (f : Frame) : Option Frame :=
  match f.items with
  | [] => none
  | r :: rs => some { f with items := op r :: rs }

/-- The parser of Go's `regexp/syntax` (Perl flags) on the fragment the program uses:
literals, `.`, the repetitions `*`, `+`, `?` (and their non-greedy forms), `|`,
capturing groups and backslash-escaped punctuation.  `cur` is the level being read,
`stack` the enclosing levels, `lastRepeat` whether the previous token was a repetition.
`none` stands for a pattern Go rejects or a pattern outside this fragment. -/
def parseLoop : List Char → Frame → List Frame → Bool → Option Pattern
  | [], cur, [], _ => some cur.close
  | [], _, _ :: _, _ => none
  | '(' :: '?' :: _, _, _, _ => none
  | '(' :: cs, cur, stack, _ => parseLoop cs ⟨[], []⟩ (cur :: stack) false
  | ')' :: _, _, [], _ => none
  | ')' :: cs, cur, up :: stack, _ =>
      parseLoop cs { up with items := Pattern.capture cur.close :: up.items } stack false
  | '|' :: cs, cur, stack, _ =>
      parseLoop cs ⟨Pattern.concatAll cur.items.reverse :: cur.branches, []⟩ stack false
  | '*' :: '?' :: cs, cur, stack, last =>
      if last then none else (cur.repeatLast Pattern.star).bind fun f => parseLoop cs f stack true
  | '*' :: cs, cur, stack, last =>
      if last then none else (cur.repeatLast Pattern.star).bind fun f => parseLoop cs f stack true
  | '+' :: '?' :: cs, cur, stack, last =>
      if last then none else (cur.repeatLast Pattern.plus).bind fun f => parseLoop cs f stack true
  | '+' :: cs, cur, stack, last =>
      if last then none else (cur.repeatLast Pattern.plus).bind fun f => parseLoop cs f stack true
  | '?' :: '?' :: cs, cur, stack, last =>
      if last then none else (cur.repeatLast Pattern.quest).bind fun f => parseLoop cs f stack true
  | '?' :: cs, cur, stack, last =>
      if last then none else (cur.repeatLast Pattern.quest).bind fun f => parseLoop cs f stack true
  | '.' :: cs, cur, stack, _ =>
      parseLoop cs { cur with items := Pattern.anyCharNotNL :: cur.items } stack false
  | '\\' :: c :: cs, cur, stack, _ =>
      if isPunct c then parseLoop cs { cur with items := Pattern.literal c :: cur.items } stack false
      else none
  | '\\' :: [], _, _, _ => none
  | '[' :: _, _, _, _ => none
  | '{' :: _, _, _, _ => none
  | '^' :: _, _, _, _ => none
  | '$' :: _, _, _, _ => none
  | c :: cs, cur, stack, _ =>
      parseLoop cs { cur with items := Pattern.literal c :: cur.items } stack false

/-- Parses a pattern. -/
def parse (expr : String) : Option Pattern :=
  parseLoop expr.data ⟨[], []⟩ [] false

namespace Pattern

/-- The set of texts an expression matches in full.  `.` is every character except the
newline (the flag `DotNL` is off under Go's default Perl flags); a capturing group
matches what its body matches. -/
def lang : Pattern → Language Char
  | noMatch => 0
  | emptyMatch => 1
  | literal c => {[c]}
  | anyCharNotNL => {w | ∃ c : Char, c ≠ '\n' ∧ w = [c]}
  | capture r => r.lang
  | star r => KStar.kstar r.lang
  | plus r => r.lang * KStar.kstar r.lang
  | quest r => r.lang + 1
  | concat r s => r.lang * s.lang
  | alternate r s => r.lang + s.lang

/-- Whether the expression matches the empty text. -/
def nullable : Pattern → Bool
  | noMatch => false
  | emptyMatch => true
  | literal _ => false
  | anyCharNotNL => false
  | capture r => r.nullable
  | star _ => true
  | plus r => r.nullable
  | quest _ => true
  | concat r s => r.nullable && s.nullable
  | alternate r s => r.nullable || s.nullable

/-- Concatenation that drops an empty match and keeps a dead expression dead. -/
def seq : Pattern → Pattern → Pattern
  | noMatch, _ => noMatch
  | emptyMatch, s => s
  | r, s => concat r s

/-- Alternation that drops a dead branch. -/
def either : Pattern → Pattern → Pattern
  | noMatch, s => s
  | r, noMatch => r
  | r, s => alternate r s

/-- The expression for what may follow the character `c`: the derivative by `c`. -/
def deriv (c : Char) : Pattern → Pattern
  | noMatch => noMatch
  | emptyMatch => noMatch
  | literal d => if c = d then emptyMatch else noMatch
  | anyCharNotNL => if c = '\n' then noMatch else emptyMatch
  | capture r => r.deriv c
  | star r => seq (r.deriv c) (star r)
  | plus r => seq (r.deriv c) (star r)
  | quest r => r.deriv c
  | concat r s => if r.nullable then either (seq (r.deriv c) s) (s.deriv c) else seq (r.deriv c) s
  | alternate r s => either (r.deriv c) (s.deriv c)

/-- Whether the expression is syntactically dead. -/
def isNoMatch : Pattern → Bool
  | noMatch => true
  | _ => false

/-- Whether some prefix of the text is matched by the expression. -/
def matchPrefix : Pattern → List Char → Bool
  | r, [] => r.nullable
  | r, c :: cs => r.nullable || (!(r.deriv c).isNoMatch && matchPrefix (r.deriv c) cs)

/-- Whether the expression matches somewhere in the text: at its first position or at a
later one. -/
def search (r : Pattern) : List Char → Bool
  | [] => r.nullable
  | c :: cs => r.matchPrefix (c :: cs) || r.search cs

/-- A run of literals followed by an expression: the shape of a pattern that starts with
plain text. -/
def lits (cs : List Char) (r : Pattern) : Pattern :=
  cs.foldr (fun c acc => concat (literal c) acc) r

end Pattern

/-- A compiled regular expression (Go's `regexp.Regexp`): the source text and the parsed
expression. -/
structure Regexp where
  expr : String
  tree : Pattern

/-- Go's `regexp.MustCompile`.  Go panics on a pattern it cannot parse; here such a
pattern compiles to the dead expression (the patterns of the program all parse, see
`knownProviders_parse`). -/
def MustCompile (expr : String) : Regexp :=
  ⟨expr, (parse expr).getD Pattern.noMatch⟩

/-- Go's `(*Regexp).Match`: whether the text contains any match of the expression. -/
def Regexp.Match (re : Regexp) (b : String) : Bool :=
  re.tree.search b.data

end regexp


namespace unicode

/-- Go's `unicode.IsSpace`: in Latin-1 the characters tab, newline, vertical tab, form
feed, carriage return, space, U+0085 and U+00A0; beyond Latin-1 the characters of the
`White_Space` property. -/
def IsSpace (r : Char) : Bool :=
  if r.toNat ≤ 0xFF then
    r.toNat = 0x09 || r.toNat = 0x0A || r.toNat = 0x0B || r.toNat = 0x0C || r.toNat = 0x0D
      || r.toNat = 0x20 || r.toNat = 0x85 || r.toNat = 0xA0
  else
    r.toNat = 0x1680 || (0x2000 ≤ r.toNat && r.toNat ≤ 0x200A) || r.toNat = 0x2028
      || r.toNat = 0x2029 || r.toNat = 0x202F || r.toNat = 0x205F || r.toNat = 0x3000

end unicode

namespace strings

/-- Go's `strings.TrimSpace`: the text without its leading and trailing white space. -/
def TrimSpace (s : String) : String :=
  ⟨((s.data.dropWhile unicode.IsSpace).reverse.dropWhile unicode.IsSpace).reverse⟩

end strings

namespace fmt

/-- The operands of a `Println`, separated by single spaces. -/
def spaced : List String → String
  | [] => ""
  | [a] => a
  | a :: rest => a ++ " " ++ spaced rest

/-- The text `fmt.Println` writes for a list of operands (an `error` operand is written
as its message): the operands separated by spaces, then a newline. -/
def Sprintln (operands : List String) : String :=
  spaced operands ++ "\n"

end fmt

namespace color

/-- The package `github.com/fatih/color`: `wrap` leaves the text alone when colours are
off (`color.NoColor`, set when standard output is no terminal), and otherwise puts it
between the escape sequence of the colour and the reset sequence. -/
def wrap (noColor : Bool) (code : String) (s : String) : String :=
  if noColor then s else "\x1b[" ++ code ++ "m" ++ s ++ "\x1b[0m"

/-- `color.RedString` without arguments (`FgRed` is 31). -/
def RedString (noColor : Bool) (format : String) : String :=
  wrap noColor "31" format

/-- `color.GreenString` without arguments (`FgGreen` is 32). -/
def GreenString (noColor : Bool) (format : String) : String :=
  wrap noColor "32" format

end color

namespace subdmtakeover

/-- The table entry type `provider`. -/
structure provider where
  Name : String
  Fingerprint : regexp.Regexp

/-- The table `knownProviders`, entry by entry as in the source (Go raw strings are
written as raw strings). -/
def knownProviders : List provider := [
  { Name := "Amazon S3",
    Fingerprint := regexp.MustCompile r"<Code>NoSuchBucket</Code>" },
  { Name := "Heroku",
    Fingerprint := regexp.MustCompile r"There's nothing here." },
  { Name := "GitHub Pages",
    Fingerprint := regexp.MustCompile r"There isn't a GitHub Pages site here." },
  { Name := "GitLab Pages",
    Fingerprint := regexp.MustCompile r"<title>.* - GitLab Pages</title>" },
  { Name := "Microsoft Azure",
    Fingerprint := regexp.MustCompile r"The resource you are looking for has been removed, had its name changed, or is temporarily unavailable." },
  { Name := "Fastly",
    Fingerprint := regexp.MustCompile r"Fastly error: unknown domain:" },
  { Name := "WordPress.com",
    Fingerprint := regexp.MustCompile r"Do you want to register .*" },
  { Name := "Tilda",
    Fingerprint := regexp.MustCompile r"<title>.* – is this your website\\?</title>" },
  { Name := "Shopify",
    Fingerprint := regexp.MustCompile r"Sorry, this shop is currently unavailable." },
  { Name := "Netlify",
    Fingerprint := regexp.MustCompile r"<title>Site Not Found</title>" },
  { Name := "Pantheon",
    Fingerprint := regexp.MustCompile r"<title>.* is parked on Pantheon</title>" },
  { Name := "Tumblr",
    Fingerprint := regexp.MustCompile r#"There's nothing here\\. <a href="https://www.tumblr.com">Whatever you were looking for doesn't currently exist at this address\\.</a>"# },
  { Name := "Cloudflare",
    Fingerprint := regexp.MustCompile r"Error 1001 \\| DNS resolution error" },
  { Name := "Fly",
    Fingerprint := regexp.MustCompile r"404 Site .*fly.dev is not served on this interface" },
  { Name := "Cargo",
    Fingerprint := regexp.MustCompile r"<title>404 Page Not Found \\| Cargo</title>" },
  { Name := "Unbounce",
    Fingerprint := regexp.MustCompile r"<title>.* - Unbounce</title>" },
  { Name := "Surge",
    Fingerprint := regexp.MustCompile r"project not found" },
  { Name := "Webflow",
    Fingerprint := regexp.MustCompile r"The page you are looking for doesn't exist or has been moved." },
  { Name := "Read the Docs",
    Fingerprint := regexp.MustCompile r"This domain is not served by Read the Docs" },
  { Name := "Hatena Blog",
    Fingerprint := regexp.MustCompile r"The page you were looking for doesn't exist \\(404\\)" },
  { Name := "Help Scout",
    Fingerprint := regexp.MustCompile r"No settings were found for this company:" },
  { Name := "Zendesk",
    Fingerprint := regexp.MustCompile r"Help Center Closed" },
  { Name := "Kinsta",
    Fingerprint := regexp.MustCompile r"No Site For Domain" },
  { Name := "Ghost",
    Fingerprint := regexp.MustCompile r"<title>Ghost \\| Sign in</title>" },
  { Name := "Acquia",
    Fingerprint := regexp.MustCompile r"Site not found · Acquia" },
  { Name := "Big Cartel",
    Fingerprint := regexp.MustCompile r"This shop is not available" },
  { Name := "Bitbucket",
    Fingerprint := regexp.MustCompile r"Repository not found" },
  { Name := "Brightcove",
    Fingerprint := regexp.MustCompile r"The page you have requested has been removed or is temporarily unavailable." },
  { Name := "Campaign Monitor",
    Fingerprint := regexp.MustCompile r"double-check that the domain is correctly configured" },
  { Name := "Cargo Collective",
    Fingerprint := regexp.MustCompile r"You have reached a domain that is pending ICANN verification" },
  { Name := "Desk",
    Fingerprint := regexp.MustCompile r"Please try again or try Desk.com free for 14 days" },
  { Name := "Distil Networks",
    Fingerprint := regexp.MustCompile r"The requested URL was not found on this server." },
  { Name := "Freshdesk",
    Fingerprint := regexp.MustCompile r"The page you're looking for is currently unavailable" },
  { Name := "G Suite",
    Fingerprint := regexp.MustCompile r"Sorry, this page is not available" },
  { Name := "Intercom",
    Fingerprint := regexp.MustCompile r"This page is no longer available" },
  { Name := "Launchrock",
    Fingerprint := regexp.MustCompile r"It looks like you may have taken a wrong turn somewhere. Don't worry...it happens to all of us." },
  { Name := "Mashery",
    Fingerprint := regexp.MustCompile r"Unrecognized domain" },
  { Name := "StatusPage",
    Fingerprint := regexp.MustCompile r"You've Discovered A Missing Link" },
  { Name := "Strikingly",
    Fingerprint := regexp.MustCompile r"Looks like you've accessed a page that doesn't exist" },
  { Name := "Thinkific",
    Fingerprint := regexp.MustCompile r"You may have mistyped the address or the page may have moved" },
  { Name := "Tictail",
    Fingerprint := regexp.MustCompile r"There's nothing here... yet" },
  { Name := "Uptime Robot",
    Fingerprint := regexp.MustCompile r"This domain is no longer being monitored" },
  { Name := "Uservoice",
    Fingerprint := regexp.MustCompile r"This UserVoice subdomain is currently available!" },
  { Name := "Wishpond",
    Fingerprint := regexp.MustCompile r"This account has been deactivated" },
  { Name := "Wix",
    Fingerprint := regexp.MustCompile r"Looks like this domain isn't connected to a website yet!" },
  { Name := "Wordpress",
    Fingerprint := regexp.MustCompile r"Do you want to register this domain and start building your website?" },
  { Name := "Worksites",
    Fingerprint := regexp.MustCompile r"Sorry, we couldn't find the page you're looking for" }
]

/-- An `*http.Response` as the program uses it: `Body` is what `ioutil.ReadAll` reads
from the response body (the program ignores the read error and the status). -/
structure Response where
  Body : String

/-- The network as the program sees it.  `LookupIPAddr` is `net.Resolver.LookupIPAddr`
under the 10 second deadline: an error message, or the addresses found, of which there is
at least one (first address, further addresses).  `Get` is `http.Client.Get` under the
5 second timeout: an error message or the response. -/
structure Net where
  LookupIPAddr : String → Except String (String × List String)
  Get : String → Except String Response

/-- What a scan does that is visible outside it. -/
inductive Event where
  | LookupIPAddr (host : String)
  | Get (url : String)
  | Println (text : String)
  | Done
  deriving DecidableEq, Repr

/-- The function `resolveSubdomain`: the lookup it performs and `ips[0].String()` or the
error. -/
def resolveSubdomain (net : Net) (subdomain : String) : List Event × Except String String :=
  ([Event.LookupIPAddr subdomain],
    match net.LookupIPAddr subdomain with
    | .error err => .error err
    | .ok ips => .ok ips.1)

/-- The function `sendRequest`: the request it performs and the response or the error. -/
def sendRequest (net : Net) (subdomain : String) : List Event × Except String Response :=
  ([Event.Get ("http://" ++ subdomain)],
    match net.Get ("http://" ++ subdomain) with
    | .error err => .error err
    | .ok response => .ok response)

/-- The loop of `checkSubdomainTakeover` over a provider table: the first entry whose
fingerprint matches the body ends it. -/
def rangeProviders : List provider → String → Bool × String
  | [], _ => (false, "")
  | provider :: rest, body =>
      if provider.Fingerprint.Match body then (true, provider.Name)
      else rangeProviders rest body

/-- The function `checkSubdomainTakeover`. -/
def checkSubdomainTakeover (response : Response) : Bool × String :=
  let body := response.Body
  rangeProviders knownProviders body

/-- The function `scanSubdomain`: the events of one scan, in order.  The deferred
`wg.Done()` is the last event on every path. -/
def scanSubdomain (net : Net) (noColor : Bool) (subdomain : String) : List Event :=
  match resolveSubdomain net subdomain with
  | (t1, .error err) =>
      t1 ++ [Event.Println (fmt.Sprintln ["Error resolving subdomain:", err]), Event.Done]
  | (t1, .ok ip) =>
      match sendRequest net subdomain with
      | (t2, .error err) =>
          t1 ++ t2 ++ [Event.Println (fmt.Sprintln ["Error sending request:", err]), Event.Done]
      | (t2, .ok response) =>
          match checkSubdomainTakeover response with
          | (true, provider) =>
              t1 ++ t2 ++ [Event.Println (fmt.Sprintln
                [color.RedString noColor "Subdomain takeover detected:", subdomain, "by",
                  provider, "at IP", ip]), Event.Done]
          | (false, _) =>
              t1 ++ t2 ++ [Event.Println (fmt.Sprintln
                [color.GreenString noColor "No takeover detected:", subdomain, "at IP", ip]),
                Event.Done]

/-- The texts a scan writes to standard output, in order. -/
def printed : List Event → List String
  | [] => []
  | Event.Println text :: rest => text :: printed rest
  | _ :: rest => printed rest

/-- A network for the worked examples: `gone.example` does not resolve, every other host
resolves to 192.0.2.10; `down.example` refuses the connection, `bucket.example` serves
the Amazon S3 error body and every other host serves a plain page. -/
def exampleNet : Net where
  LookupIPAddr := fun host =>
    if host = "gone.example" then .error "lookup gone.example: no such host"
    else .ok ("192.0.2.10", [])
  Get := fun url =>
    if url = "http://down.example" then .error "dial tcp 192.0.2.10:80: connection refused"
    else if url = "http://bucket.example" then .ok ⟨"<Code>NoSuchBucket</Code>"⟩
    else .ok ⟨"<html><body>It works!</body></html>"⟩

/-- Standard input as `bufio.Scanner` delivers it: the successive values of
`scanner.Text()` and the value of `scanner.Err()` once `scanner.Scan()` has returned
false. -/
structure Stdin where
  lines : List String
  err : Option String

/-- The reading loop of `main`: each line is trimmed and appended unless empty. -/
def readSubdomains (lines : List String) : List String :=
  lines.foldl (fun subdomains line =>
    let subdomain := strings.TrimSpace line
    if subdomain != "" then subdomains ++ [subdomain] else subdomains) []

/-- What a run of `main` amounts to: what it wrote to standard error, its exit code, and
the subdomains it starts a `scanSubdomain` goroutine for, in the order of the `go`
statements. -/
structure Run where
  stderr : String
  exitCode : Nat
  launched : List String
  deriving DecidableEq, Repr

/-- The function `main`, up to the `go` statements. -/
def main (stdin : Stdin) : Run :=
  let subdomains := readSubdomains stdin.lines
  match stdin.err with
  | some err =>
      { stderr := "Error reading subdomains: " ++ err ++ "\n", exitCode := 1,
        launched := [] }
  | none =>
      { stderr := "", exitCode := 0, launched := subdomains }

/-- Where `main` stands once standard input is read without error: before
`wg.Add(len(subdomains))`, in the loop of `go` statements with `rest` still to start, at
`wg.Wait()`, or past it. -/
inductive MainAt where
  | add
  | go (rest : List String)
  | wait
  | returned
  deriving DecidableEq, Repr

/-- The goroutines of a run: where `main` stands, the counter of the `sync.WaitGroup`,
and for every `scanSubdomain` goroutine started so far the events it has still to
perform. -/
structure Machine where
  main : MainAt
  counter : Int
  tasks : List (List Event)
  deriving DecidableEq, Repr

/-- Whose turn the scheduler gives: `main` or the goroutine started `i`-th. -/
inductive Turn where
  | main
  | task (i : Nat)
  deriving DecidableEq, Repr

/-- The state before `wg.Add`. -/
def Machine.start : Machine :=
  { main := MainAt.add, counter := 0, tasks := [] }

/-- One turn.  `main` adds `len(subdomains)` to the counter, starts the goroutines one by
one, and passes `wg.Wait()` only when the counter is zero; a goroutine performs its next
event, and `wg.Done()` takes one off the counter.  `none` when the goroutine chosen cannot
move: it has finished, was never started, or is `main` blocked in `wg.Wait()` or
returned. -/
def step (net : Net) (noColor : Bool) (subdomains : List String) (m : Machine) :
    Turn → Option Machine
  | Turn.main =>
      match m.main with
      | MainAt.add =>
          some { m with main := MainAt.go subdomains, counter := m.counter + subdomains.length }
      | MainAt.go (subdomain :: rest) =>
          some { m with main := MainAt.go rest,
                        tasks := m.tasks ++ [scanSubdomain net noColor subdomain] }
      | MainAt.go [] => some { m with main := MainAt.wait }
      | MainAt.wait => if m.counter = 0 then some { m with main := MainAt.returned } else none
      | MainAt.returned => none
  | Turn.task i =>
      match m.tasks[i]? with
      | some (event :: rest) =>
          some { m with tasks := m.tasks.set i rest,
                        counter := if event = Event.Done then m.counter - 1 else m.counter }
      | _ => none

/-- The state after a schedule, a list of turns, when every turn of it can be taken. -/
def run (net : Net) (noColor : Bool) (subdomains : List String) :
    Machine → List Turn → Option Machine
  | m, [] => some m
  | m, turn :: turns =>
      match step net noColor subdomains m turn with
      | some next => run net noColor subdomains next turns
      | none => none

/-- The calls of `wg.Done()` the goroutines started have still to make. -/
def pendingDone (tasks : List (List Event)) : Nat :=
  (tasks.map fun events => events.count Event.Done).sum

/-- What remains of a scan is nothing or ends with `wg.Done()`. -/
def EndsWithDone (events : List Event) : Prop :=
  events = [] ∨ events.getLast? = some Event.Done

/-- What holds of every state a schedule reaches. -/
def Invariant (subdomains : List String) (m : Machine) : Prop :=
  (∀ events ∈ m.tasks, EndsWithDone events) ∧
  match m.main with
  | MainAt.add => m.counter = 0 ∧ m.tasks = []
  | MainAt.go rest =>
      m.tasks.length + rest.length = subdomains.length ∧
      m.counter = rest.length + pendingDone m.tasks
  | MainAt.wait =>
      m.tasks.length = subdomains.length ∧ m.counter = pendingDone m.tasks
  | MainAt.returned =>
      m.tasks.length = subdomains.length ∧ m.counter = pendingDone m.tasks ∧ m.counter = 0

end subdmtakeover

/-! ## The matcher decides membership in the language -/

namespace regexp

theorem cons_mem_mul {L M : Language Char} {c : Char} {w : List Char} :
    c :: w ∈ L * M ↔ ([] ∈ L ∧ c :: w ∈ M) ∨ ∃ a b, c :: a ∈ L ∧ b ∈ M ∧ a ++ b = w := by
  rw [Language.mem_mul]
  constructor
  · rintro ⟨a, ha, b, hb, hab⟩
    cases a with
    | nil => left; simp only [List.nil_append] at hab; subst hab; exact ⟨ha, hb⟩
    | cons d a =>
      right
      simp only [List.cons_append, List.cons.injEq] at hab
      obtain ⟨rfl, rfl⟩ := hab
      exact ⟨a, b, ha, hb, rfl⟩
  · rintro (⟨h1, h2⟩ | ⟨a, b, ha, hb, rfl⟩)
    · exact ⟨[], h1, c :: w, h2, rfl⟩
    · exact ⟨c :: a, ha, b, hb, rfl⟩

theorem cons_mem_kstar {L : Language Char} {c : Char} {w : List Char} :
    c :: w ∈ KStar.kstar L ↔ ∃ a b, c :: a ∈ L ∧ b ∈ KStar.kstar L ∧ a ++ b = w := by
  constructor
  · intro h
    obtain ⟨S, hS, hne⟩ := Language.mem_kstar_iff_exists_nonempty.mp h
    cases S with
    | nil => simp at hS
    | cons y S =>
      have hy := hne y (List.mem_cons_self _ _)
      cases y with
      | nil => exact absurd rfl hy.2
      | cons d a =>
        simp only [List.flatten, List.cons_append, List.cons.injEq] at hS
        obtain ⟨rfl, rfl⟩ := hS
        refine ⟨a, S.flatten, hy.1, ?_, rfl⟩
        exact Language.join_mem_kstar fun z hz => (hne z (List.mem_cons_of_mem _ hz)).1
  · rintro ⟨a, b, ha, hb, rfl⟩
    rw [← Language.one_add_self_mul_kstar_eq_kstar, Language.mem_add]
    right
    exact Language.append_mem_mul ha hb

namespace Pattern

theorem mem_lang_literal {c : Char} {w : List Char} : w ∈ (literal c).lang ↔ w = [c] :=
  Iff.rfl

theorem mem_lang_anyCharNotNL {w : List Char} :
    w ∈ anyCharNotNL.lang ↔ ∃ c : Char, c ≠ '\n' ∧ w = [c] :=
  Iff.rfl

theorem lang_seq (r s : Pattern) : (seq r s).lang = r.lang * s.lang := by
  cases r <;> simp [seq, lang]

theorem lang_either (r s : Pattern) : (either r s).lang = r.lang + s.lang := by
  cases r <;> cases s <;> simp [either, lang]

theorem lang_of_isNoMatch {r : Pattern} (h : r.isNoMatch = true) : r.lang = 0 := by
  cases r <;> simp [isNoMatch] at h
  rfl

theorem nullable_iff (r : Pattern) : r.nullable = true ↔ [] ∈ r.lang := by
  induction r with
  | noMatch => simp [nullable, lang, Language.not_mem_zero]
  | emptyMatch => simp [nullable, lang, Language.mem_one]
  | literal c => simp [nullable, mem_lang_literal]
  | anyCharNotNL => simp [nullable, mem_lang_anyCharNotNL]
  | capture r ih => simpa [nullable, lang] using ih
  | star r _ => simp [nullable, lang, Language.nil_mem_kstar]
  | plus r ih =>
    simp only [nullable, lang, Language.mem_mul, List.append_eq_nil, ih]
    constructor
    · intro h; exact ⟨[], h, [], Language.nil_mem_kstar _, rfl, rfl⟩
    · rintro ⟨a, ha, b, _, rfl, rfl⟩; exact ha
  | quest r _ => simp [nullable, lang, Language.mem_add, Language.mem_one]
  | concat r s ihr ihs =>
    simp only [nullable, lang, Language.mem_mul, List.append_eq_nil, Bool.and_eq_true, ihr, ihs]
    constructor
    · rintro ⟨h1, h2⟩; exact ⟨[], h1, [], h2, rfl, rfl⟩
    · rintro ⟨a, ha, b, hb, rfl, rfl⟩; exact ⟨ha, hb⟩
  | alternate r s ihr ihs =>
    simp only [nullable, lang, Language.mem_add, Bool.or_eq_true, ihr, ihs]

theorem deriv_iff (c : Char) (r : Pattern) (w : List Char) :
    w ∈ (r.deriv c).lang ↔ c :: w ∈ r.lang := by
  induction r generalizing w with
  | noMatch => simp [deriv, lang, Language.not_mem_zero]
  | emptyMatch => simp [deriv, lang, Language.not_mem_zero, Language.mem_one]
  | literal d =>
    by_cases h : c = d
    · simp [deriv, mem_lang_literal, h, show emptyMatch.lang = 1 from rfl, Language.mem_one]
    · simp [deriv, mem_lang_literal, h, show noMatch.lang = 0 from rfl, Language.not_mem_zero]
  | anyCharNotNL =>
    by_cases h : c = '\n'
    · subst h
      simp only [deriv, if_true, show noMatch.lang = 0 from rfl, mem_lang_anyCharNotNL]
      constructor
      · intro hw; exact absurd hw (Language.not_mem_zero _)
      · rintro ⟨d, hd, hw⟩
        simp only [List.cons.injEq] at hw
        exact absurd hw.1.symm hd
    · simp only [deriv, h, if_false, show emptyMatch.lang = 1 from rfl, Language.mem_one,
        mem_lang_anyCharNotNL]
      constructor
      · rintro rfl; exact ⟨c, h, rfl⟩
      · rintro ⟨d, _, hw⟩
        simp only [List.cons.injEq] at hw
        exact hw.2
  | capture r ih => simpa [deriv, lang] using ih w
  | star r ih =>
    simp only [deriv, lang, lang_seq, Language.mem_mul, cons_mem_kstar, ih]
    constructor
    · rintro ⟨a, ha, b, hb, rfl⟩; exact ⟨a, b, ha, hb, rfl⟩
    · rintro ⟨a, b, ha, hb, rfl⟩; exact ⟨a, ha, b, hb, rfl⟩
  | plus r ih =>
    simp only [deriv, lang, lang_seq, Language.mem_mul, ih]
    constructor
    · rintro ⟨a, ha, b, hb, rfl⟩; exact ⟨c :: a, ha, b, hb, rfl⟩
    · rintro ⟨a, ha, b, hb, hab⟩
      cases a with
      | nil =>
        simp only [List.nil_append] at hab
        subst hab
        obtain ⟨x, y, hx, hy, rfl⟩ := cons_mem_kstar.mp hb
        exact ⟨x, hx, y, hy, rfl⟩
      | cons d a =>
        simp only [List.cons_append, List.cons.injEq] at hab
        obtain ⟨rfl, rfl⟩ := hab
        exact ⟨a, ha, b, hb, rfl⟩
  | quest r ih => simp [deriv, lang, Language.mem_add, Language.mem_one, ih]
  | concat r s ihr ihs =>
    rw [show (concat r s).lang = r.lang * s.lang from rfl, cons_mem_mul]
    by_cases h : r.nullable = true
    · simp only [deriv, h, if_true, lang_either, lang_seq, Language.mem_add, Language.mem_mul,
        ihr, ihs, ← nullable_iff, true_and]
      constructor
      · rintro (⟨a, ha, b, hb, rfl⟩ | h2)
        · exact Or.inr ⟨a, b, ha, hb, rfl⟩
        · exact Or.inl h2
      · rintro (h2 | ⟨a, b, ha, hb, rfl⟩)
        · exact Or.inr h2
        · exact Or.inl ⟨a, ha, b, hb, rfl⟩
    · simp only [deriv, h, if_false, lang_seq, Language.mem_mul, ihr, ← nullable_iff, false_and,
        false_or, Bool.false_eq_true]
      constructor
      · rintro ⟨a, ha, b, hb, rfl⟩; exact ⟨a, b, ha, hb, rfl⟩
      · rintro ⟨a, b, ha, hb, rfl⟩; exact ⟨a, ha, b, hb, rfl⟩
  | alternate r s ihr ihs =>
    simp only [deriv, lang, lang_either, Language.mem_add, ihr, ihs]

theorem matchPrefix_iff (r : Pattern) (t : List Char) :
    r.matchPrefix t = true ↔ ∃ u v, u ++ v = t ∧ u ∈ r.lang := by
  induction t generalizing r with
  | nil =>
    simp only [matchPrefix, nullable_iff, List.append_eq_nil]
    constructor
    · intro h; exact ⟨[], [], ⟨rfl, rfl⟩, h⟩
    · rintro ⟨u, v, ⟨rfl, _⟩, h⟩; exact h
  | cons c cs ih =>
    simp only [matchPrefix, Bool.or_eq_true, Bool.and_eq_true, Bool.not_eq_true', nullable_iff, ih]
    constructor
    · rintro (h | ⟨_, u, v, rfl, hu⟩)
      · exact ⟨[], c :: cs, rfl, h⟩
      · exact ⟨c :: u, v, rfl, (deriv_iff c r u).mp hu⟩
    · rintro ⟨u, v, huv, hu⟩
      cases u with
      | nil => exact Or.inl hu
      | cons d u =>
        simp only [List.cons_append, List.cons.injEq] at huv
        obtain ⟨rfl, rfl⟩ := huv
        have hd : u ∈ (r.deriv d).lang := (deriv_iff d r u).mpr hu
        refine Or.inr ⟨?_, u, v, rfl, hd⟩
        cases hdead : (r.deriv d).isNoMatch with
        | false => rfl
        | true =>
          rw [lang_of_isNoMatch hdead] at hd
          exact absurd hd (Language.not_mem_zero _)

theorem search_iff (r : Pattern) (t : List Char) :
    r.search t = true ↔ ∃ p u v, p ++ u ++ v = t ∧ u ∈ r.lang := by
  induction t with
  | nil =>
    simp only [search, nullable_iff, List.append_eq_nil]
    constructor
    · intro h; exact ⟨[], [], [], ⟨⟨rfl, rfl⟩, rfl⟩, h⟩
    · rintro ⟨p, u, v, ⟨⟨_, rfl⟩, _⟩, h⟩; exact h
  | cons c cs ih =>
    simp only [search, Bool.or_eq_true, matchPrefix_iff, ih]
    constructor
    · rintro (⟨u, v, huv, hu⟩ | ⟨p, u, v, hp, hu⟩)
      · exact ⟨[], u, v, by simpa using huv, hu⟩
      · exact ⟨c :: p, u, v, by simp [← hp], hu⟩
    · rintro ⟨p, u, v, hp, hu⟩
      cases p with
      | nil => exact Or.inl ⟨u, v, by simpa using hp, hu⟩
      | cons d p =>
        simp only [List.cons_append, List.cons.injEq] at hp
        exact Or.inr ⟨p, u, v, hp.2, hu⟩

theorem mem_lang_lits {cs : List Char} {r : Pattern} {w : List Char} :
    w ∈ (lits cs r).lang ↔ ∃ v, v ∈ r.lang ∧ w = cs ++ v := by
  induction cs generalizing w with
  | nil => simp [lits]
  | cons c cs ih =>
    show w ∈ (literal c).lang * (lits cs r).lang ↔ _
    simp only [Language.mem_mul, mem_lang_literal, ih]
    constructor
    · rintro ⟨a, rfl, b, ⟨v, hv, rfl⟩, rfl⟩; exact ⟨v, hv, rfl⟩
    · rintro ⟨v, hv, rfl⟩; exact ⟨[c], rfl, cs ++ v, ⟨v, hv, rfl⟩, rfl⟩

theorem search_of_infix {r : Pattern} {a b : List Char} (h : r.search a = true)
    (hab : a <:+: b) : r.search b = true := by
  obtain ⟨p, u, v, rfl, hu⟩ := (search_iff r a).mp h
  obtain ⟨s, t, rfl⟩ := hab
  exact (search_iff r _).mpr ⟨s ++ p, u, v ++ t, by simp, hu⟩

theorem search_of_prefix_lang {r q : Pattern}
    (h : ∀ w ∈ r.lang, ∃ a v, a ∈ q.lang ∧ w = a ++ v) {t : List Char}
    (ht : r.search t = true) : q.search t = true := by
  obtain ⟨p, u, v, rfl, hu⟩ := (search_iff r t).mp ht
  obtain ⟨a, x, ha, rfl⟩ := h u hu
  exact (search_iff q _).mpr ⟨p, a, x ++ v, by simp, ha⟩

end Pattern

/-- The model of `(*Regexp).Match` is Go's documented contract: the text contains a
piece the expression matches in full. -/
theorem Regexp.Match_iff (re : Regexp) (b : String) :
    re.Match b = true ↔ ∃ p u v, p ++ u ++ v = b.data ∧ u ∈ re.tree.lang :=
  Pattern.search_iff re.tree b.data

end regexp

/-! ## The matcher -/

namespace subdmtakeover
open regexp regexp.Pattern

/-- Every pattern of the table is in the fragment the parser covers, so `MustCompile`
does not fall back on the dead expression. -/
theorem knownProviders_parse :
    ∀ p ∈ knownProviders, (regexp.parse p.Fingerprint.expr).isSome = true := by
  decide!

/-- The loop over a table returns the name of the lowest-index matching entry, or
`(false, "")` when no entry matches. -/
theorem rangeProviders_spec (table : List provider) (body : String) :
    (∃ i, ∃ h : i < table.length,
        (table.get ⟨i, h⟩).Fingerprint.Match body = true ∧
        (∀ j, ∀ hj : j < i,
          (table.get ⟨j, Nat.lt_trans hj h⟩).Fingerprint.Match body = false) ∧
        rangeProviders table body = (true, (table.get ⟨i, h⟩).Name)) ∨
    ((∀ p ∈ table, p.Fingerprint.Match body = false) ∧
        rangeProviders table body = (false, "")) := by
  induction table with
  | nil => exact Or.inr ⟨by simp, rfl⟩
  | cons p rest ih =>
    cases hp : p.Fingerprint.Match body with
    | true =>
      refine Or.inl ⟨0, Nat.succ_pos _, hp, ?_, ?_⟩
      · intro j hj; exact absurd hj (Nat.not_lt_zero j)
      · simp [rangeProviders, hp]
    | false =>
      have hstep : rangeProviders (p :: rest) body = rangeProviders rest body := by
        simp [rangeProviders, hp]
      rcases ih with ⟨i, h, hm, hbefore, hres⟩ | ⟨hnone, hres⟩
      · refine Or.inl ⟨i + 1, Nat.succ_lt_succ h, hm, ?_, ?_⟩
        · intro j hj
          cases j with
          | zero => exact hp
          | succ j => exact hbefore j (Nat.lt_of_succ_lt_succ hj)
        · rw [hstep]; exact hres
      · refine Or.inr ⟨?_, ?_⟩
        · intro q hq
          rcases List.mem_cons.mp hq with rfl | hq
          · exact hp
          · exact hnone q hq
        · rw [hstep]; exact hres

/-- The loop reports a takeover exactly when some entry of the table matches. -/
theorem rangeProviders_fst (table : List provider) (body : String) :
    (rangeProviders table body).1 = true ↔
      ∃ p ∈ table, p.Fingerprint.Match body = true := by
  induction table with
  | nil => simp [rangeProviders]
  | cons p rest ih =>
    cases hp : p.Fingerprint.Match body with
    | true => simp [rangeProviders, hp]
    | false => simp [rangeProviders, hp, ih]

/-- The loop only looks at the entries that match, and of those at the first. -/
theorem rangeProviders_filter (table : List provider) (body : String) :
    rangeProviders table body =
      rangeProviders (table.filter fun p => p.Fingerprint.Match body) body := by
  induction table with
  | nil => rfl
  | cons p rest ih =>
    cases hp : p.Fingerprint.Match body with
    | true => simp [rangeProviders, List.filter, hp]
    | false => simp [rangeProviders, List.filter, hp, ih]

/-- C1: for every response body, `checkSubdomainTakeover` returns `(true, name)` for the
name of the lowest-index entry of `knownProviders` whose fingerprint matches the body
when some entry matches, and it returns `(false, "")` exactly when no entry matches. -/
theorem checkSubdomainTakeover_first_match (response : Response) :
    ((∃ i, ∃ h : i < knownProviders.length,
        (knownProviders.get ⟨i, h⟩).Fingerprint.Match response.Body = true ∧
        (∀ j, ∀ hj : j < i,
          (knownProviders.get ⟨j, Nat.lt_trans hj h⟩).Fingerprint.Match response.Body = false) ∧
        checkSubdomainTakeover response = (true, (knownProviders.get ⟨i, h⟩).Name)) ∨
      ((∀ p ∈ knownProviders, p.Fingerprint.Match response.Body = false) ∧
        checkSubdomainTakeover response = (false, ""))) ∧
    (checkSubdomainTakeover response = (false, "") ↔
      ∀ p ∈ knownProviders, p.Fingerprint.Match response.Body = false) := by
  refine ⟨rangeProviders_spec knownProviders response.Body, ?_⟩
  constructor
  · intro h p hp
    cases hm : p.Fingerprint.Match response.Body with
    | false => rfl
    | true =>
      have hfst : (checkSubdomainTakeover response).1 = true :=
        (rangeProviders_fst knownProviders response.Body).mpr ⟨p, hp, hm⟩
      rw [h] at hfst
      exact absurd hfst (by decide)
  · intro h
    rcases rangeProviders_spec knownProviders response.Body with ⟨i, hi, hm, _, _⟩ | ⟨_, hres⟩
    · have := h _ (List.get_mem knownProviders i hi)
      rw [this] at hm
      exact absurd hm (by decide)
    · exact hres

/-- C8: for every permutation of `knownProviders` the boolean returned on any body is the
one `checkSubdomainTakeover` returns, which is true exactly when some entry matches; the
whole result can differ only on a body matched by more than one entry, and then only in
the provider name. -/
theorem checkSubdomainTakeover_permutation (table : List provider)
    (hperm : table.Perm knownProviders) (response : Response) :
    (rangeProviders table response.Body).1 = (checkSubdomainTakeover response).1 ∧
    ((checkSubdomainTakeover response).1 = true ↔
      ∃ p ∈ knownProviders, p.Fingerprint.Match response.Body = true) ∧
    (rangeProviders table response.Body ≠ checkSubdomainTakeover response →
      1 < knownProviders.countP fun p => p.Fingerprint.Match response.Body) := by
  refine ⟨?_, rangeProviders_fst knownProviders response.Body, ?_⟩
  · rw [Bool.eq_iff_iff, rangeProviders_fst]
    show _ ↔ (rangeProviders knownProviders response.Body).1 = true
    rw [rangeProviders_fst]
    constructor
    · rintro ⟨p, hp, hm⟩; exact ⟨p, hperm.mem_iff.mp hp, hm⟩
    · rintro ⟨p, hp, hm⟩; exact ⟨p, hperm.mem_iff.mpr hp, hm⟩
  · intro hne
    by_contra hle
    apply hne
    have hfilter := hperm.filter fun p => p.Fingerprint.Match response.Body
    have hlen : (knownProviders.filter fun p => p.Fingerprint.Match response.Body).length ≤ 1 := by
      rw [← List.countP_eq_length_filter]; omega
    show rangeProviders table response.Body = rangeProviders knownProviders response.Body
    rw [rangeProviders_filter table, rangeProviders_filter knownProviders]
    generalize (knownProviders.filter fun p => p.Fingerprint.Match response.Body) = ys at hfilter hlen
    match ys, hlen with
    | [], _ => rw [List.perm_nil.mp hfilter]
    | [y], _ => rw [List.perm_singleton.mp hfilter]

/-- C8 on the table in reverse order and a body two entries match: the boolean is the
same, the name is not. -/
theorem checkSubdomainTakeover_permutation_witness :
    knownProviders.reverse.Perm knownProviders ∧
    rangeProviders knownProviders.reverse "There's nothing here... yet" = (true, "Tictail") ∧
    checkSubdomainTakeover ⟨"There's nothing here... yet"⟩ = (true, "Heroku") ∧
    ((rangeProviders knownProviders.reverse "There's nothing here... yet").1 =
        (checkSubdomainTakeover ⟨"There's nothing here... yet"⟩).1 ∧
      ((checkSubdomainTakeover ⟨"There's nothing here... yet"⟩).1 = true ↔
        ∃ p ∈ knownProviders, p.Fingerprint.Match "There's nothing here... yet" = true) ∧
      (rangeProviders knownProviders.reverse "There's nothing here... yet" ≠
          checkSubdomainTakeover ⟨"There's nothing here... yet"⟩ →
        1 < knownProviders.countP fun p =>
          p.Fingerprint.Match "There's nothing here... yet")) :=
  ⟨List.reverse_perm _, by decide!, by decide!,
    checkSubdomainTakeover_permutation knownProviders.reverse (List.reverse_perm _)
      ⟨"There's nothing here... yet"⟩⟩


theorem heroku_tree :
    (MustCompile r"There's nothing here.").tree =
      lits "There's nothing here".data anyCharNotNL := by
  decide!

theorem tumblr_tree : ∃ X,
    (MustCompile r#"There's nothing here\\. <a href="https://www.tumblr.com">Whatever you were looking for doesn't currently exist at this address\\.</a>"#).tree =
      lits "There's nothing here".data (concat (literal '\\') X) :=
  ⟨_, rfl⟩

theorem tictail_tree : ∃ X,
    (MustCompile r"There's nothing here... yet").tree =
      lits "There's nothing here".data (concat anyCharNotNL X) :=
  ⟨_, rfl⟩

theorem wordpressCom_tree :
    (MustCompile r"Do you want to register .*").tree =
      lits "Do you want to register ".data (star anyCharNotNL) := by
  decide!

theorem wordpress_tree : ∃ X,
    (MustCompile r"Do you want to register this domain and start building your website?").tree =
      lits "Do you want to register ".data X :=
  ⟨_, rfl⟩


/-- Every body the Tumblr pattern matches is matched by the Heroku pattern. -/
theorem heroku_shadows_tumblr (body : String) :
    (MustCompile r#"There's nothing here\\. <a href="https://www.tumblr.com">Whatever you were looking for doesn't currently exist at this address\\.</a>"#).Match body = true →
    (MustCompile r"There's nothing here.").Match body = true := by
  refine search_of_prefix_lang fun w hw => ?_
  obtain ⟨X, hX⟩ := tumblr_tree
  rw [hX] at hw
  obtain ⟨v, hv, rfl⟩ := mem_lang_lits.mp hw
  obtain ⟨a, ha, b, _, rfl⟩ := Language.mem_mul.mp hv
  rw [mem_lang_literal.mp ha]
  refine ⟨"There's nothing here".data ++ ['\\'], b, ?_, by simp⟩
  rw [heroku_tree]
  exact mem_lang_lits.mpr ⟨['\\'], ⟨'\\', by decide, rfl⟩, rfl⟩

/-- Every body the Tictail pattern matches is matched by the Heroku pattern. -/
theorem heroku_shadows_tictail (body : String) :
    (MustCompile r"There's nothing here... yet").Match body = true →
    (MustCompile r"There's nothing here.").Match body = true := by
  refine search_of_prefix_lang fun w hw => ?_
  obtain ⟨X, hX⟩ := tictail_tree
  rw [hX] at hw
  obtain ⟨v, hv, rfl⟩ := mem_lang_lits.mp hw
  obtain ⟨a, ha, b, _, rfl⟩ := Language.mem_mul.mp hv
  obtain ⟨c, hc, rfl⟩ := mem_lang_anyCharNotNL.mp ha
  refine ⟨"There's nothing here".data ++ [c], b, ?_, by simp⟩
  rw [heroku_tree]
  exact mem_lang_lits.mpr ⟨[c], ⟨c, hc, rfl⟩, rfl⟩

/-- Every body the Wordpress pattern matches is matched by the WordPress.com pattern. -/
theorem wordpressCom_shadows_wordpress (body : String) :
    (MustCompile r"Do you want to register this domain and start building your website?").Match body = true →
    (MustCompile r"Do you want to register .*").Match body = true := by
  refine search_of_prefix_lang fun w hw => ?_
  obtain ⟨X, hX⟩ := wordpress_tree
  rw [hX] at hw
  obtain ⟨v, _, rfl⟩ := mem_lang_lits.mp hw
  refine ⟨"Do you want to register ".data, v, ?_, rfl⟩
  rw [wordpressCom_tree]
  exact mem_lang_lits.mpr ⟨[], Language.nil_mem_kstar _, by simp⟩

/-- Where the entries involved stand in the table. -/
theorem index_of_name :
    ∀ i, ∀ h : i < knownProviders.length,
      ((knownProviders.get ⟨i, h⟩).Name = "Tumblr" → i = 11) ∧
      ((knownProviders.get ⟨i, h⟩).Name = "Tictail" → i = 40) ∧
      ((knownProviders.get ⟨i, h⟩).Name = "Wordpress" → i = 45) := by
  decide!

/-- A shadowed entry is never the first to match. -/
theorem shadowed_at (body : String) (i : Nat) (h : i < knownProviders.length)
    (hname : (knownProviders.get ⟨i, h⟩).Name = "Tumblr" ∨
      (knownProviders.get ⟨i, h⟩).Name = "Tictail" ∨
      (knownProviders.get ⟨i, h⟩).Name = "Wordpress")
    (hm : (knownProviders.get ⟨i, h⟩).Fingerprint.Match body = true) :
    ∃ j, ∃ hj : j < i,
      ((knownProviders.get ⟨j, Nat.lt_trans hj h⟩).Name = "Heroku" ∨
        (knownProviders.get ⟨j, Nat.lt_trans hj h⟩).Name = "WordPress.com") ∧
      (knownProviders.get ⟨j, Nat.lt_trans hj h⟩).Fingerprint.Match body = true := by
  rcases hname with hn | hn | hn
  · obtain rfl := (index_of_name i h).1 hn
    exact ⟨1, by decide, Or.inl rfl, heroku_shadows_tumblr body hm⟩
  · obtain rfl := (index_of_name i h).2.1 hn
    exact ⟨1, by decide, Or.inl rfl, heroku_shadows_tictail body hm⟩
  · obtain rfl := (index_of_name i h).2.2 hn
    exact ⟨6, by decide, Or.inr rfl, wordpressCom_shadows_wordpress body hm⟩


/-- Apart from five entries, a fingerprint matches its own text. -/
theorem matches_own_text :
    ∀ i, ∀ h : i < knownProviders.length,
      (knownProviders.get ⟨i, h⟩).Name ∉ ["Tilda", "Tumblr", "Hatena Blog", "Tictail", "Wordpress"] →
      (knownProviders.get ⟨i, h⟩).Fingerprint.Match
        (knownProviders.get ⟨i, h⟩).Fingerprint.expr = true := by
  decide!

/-- Apart from five entries, the text of a fingerprint is reported as its provider. -/
theorem own_text_reported :
    ∀ i, ∀ h : i < knownProviders.length,
      (knownProviders.get ⟨i, h⟩).Name ∉ ["Tilda", "Tumblr", "Hatena Blog", "Tictail", "Wordpress"] →
      checkSubdomainTakeover ⟨(knownProviders.get ⟨i, h⟩).Fingerprint.expr⟩ =
        (true, (knownProviders.get ⟨i, h⟩).Name) := by
  decide!


/-- C10: for every response body `checkSubdomainTakeover` never returns the names
"Tumblr", "Tictail" or "Wordpress": a body matched by the Tumblr or the Tictail entry is
matched by the earlier Heroku entry (pattern `There's nothing here.`), and a body matched
by the Wordpress entry is matched by the earlier WordPress.com entry (pattern
`Do you want to register .*`). -/
theorem tumblr_tictail_wordpress_unreachable (response : Response) :
    (checkSubdomainTakeover response).2 ≠ "Tumblr" ∧
    (checkSubdomainTakeover response).2 ≠ "Tictail" ∧
    (checkSubdomainTakeover response).2 ≠ "Wordpress" ∧
    (∀ i, ∀ h : i < knownProviders.length,
      ((knownProviders.get ⟨i, h⟩).Name = "Tumblr" ∨
        (knownProviders.get ⟨i, h⟩).Name = "Tictail") →
      (knownProviders.get ⟨i, h⟩).Fingerprint.Match response.Body = true →
      ∃ j, ∃ hj : j < i,
        (knownProviders.get ⟨j, Nat.lt_trans hj h⟩).Name = "Heroku" ∧
        (knownProviders.get ⟨j, Nat.lt_trans hj h⟩).Fingerprint.expr = "There's nothing here." ∧
        (knownProviders.get ⟨j, Nat.lt_trans hj h⟩).Fingerprint.Match response.Body = true) ∧
    (∀ i, ∀ h : i < knownProviders.length,
      (knownProviders.get ⟨i, h⟩).Name = "Wordpress" →
      (knownProviders.get ⟨i, h⟩).Fingerprint.Match response.Body = true →
      ∃ j, ∃ hj : j < i,
        (knownProviders.get ⟨j, Nat.lt_trans hj h⟩).Name = "WordPress.com" ∧
        (knownProviders.get ⟨j, Nat.lt_trans hj h⟩).Fingerprint.expr = "Do you want to register .*" ∧
        (knownProviders.get ⟨j, Nat.lt_trans hj h⟩).Fingerprint.Match response.Body = true) := by
  have never : ∀ n : String, n = "Tumblr" ∨ n = "Tictail" ∨ n = "Wordpress" →
      (checkSubdomainTakeover response).2 ≠ n := by
    intro n hn heq
    rcases rangeProviders_spec knownProviders response.Body with
      ⟨i, h, hm, hbefore, hres⟩ | ⟨_, hres⟩
    · have hname : (knownProviders.get ⟨i, h⟩).Name = n := by
        rw [← heq]; show _ = (rangeProviders knownProviders response.Body).2
        rw [hres]
      obtain ⟨j, hj, _, hmj⟩ := shadowed_at response.Body i h (by rw [hname]; exact hn) hm
      rw [hbefore j hj] at hmj
      exact absurd hmj (by decide)
    · have hempty : (checkSubdomainTakeover response).2 = "" := by
        show (rangeProviders knownProviders response.Body).2 = ""
        rw [hres]
      rw [hempty] at heq
      subst heq
      revert hn
      decide
  refine ⟨never _ (Or.inl rfl), never _ (Or.inr (Or.inl rfl)), never _ (Or.inr (Or.inr rfl)),
    ?_, ?_⟩
  · intro i h hname hm
    rcases hname with hn | hn
    · obtain rfl := (index_of_name i h).1 hn
      exact ⟨1, by decide, rfl, rfl, heroku_shadows_tumblr response.Body hm⟩
    · obtain rfl := (index_of_name i h).2.1 hn
      exact ⟨1, by decide, rfl, rfl, heroku_shadows_tictail response.Body hm⟩
  · intro i h hn hm
    obtain rfl := (index_of_name i h).2.2 hn
    exact ⟨6, by decide, rfl, rfl, wordpressCom_shadows_wordpress response.Body hm⟩

/-- C2 as stated fails: a body that contains the Surge fingerprint text after the
Amazon S3 one is reported as Amazon S3, and the fingerprint texts of Tilda, Tumblr,
Hatena Blog, Tictail and Wordpress are not reported as these providers. -/
theorem fingerprint_text_not_always_own_provider :
    (knownProviders.get ⟨16, by decide⟩).Name = "Surge" ∧
    (knownProviders.get ⟨16, by decide⟩).Fingerprint.expr.data <:+:
      "<Code>NoSuchBucket</Code> project not found".data ∧
    checkSubdomainTakeover ⟨"<Code>NoSuchBucket</Code> project not found"⟩ =
      (true, "Amazon S3") ∧
    (knownProviders.get ⟨7, by decide⟩).Name = "Tilda" ∧
    checkSubdomainTakeover ⟨(knownProviders.get ⟨7, by decide⟩).Fingerprint.expr⟩ =
      (false, "") ∧
    (knownProviders.get ⟨11, by decide⟩).Name = "Tumblr" ∧
    checkSubdomainTakeover ⟨(knownProviders.get ⟨11, by decide⟩).Fingerprint.expr⟩ =
      (true, "Heroku") ∧
    (knownProviders.get ⟨19, by decide⟩).Name = "Hatena Blog" ∧
    checkSubdomainTakeover ⟨(knownProviders.get ⟨19, by decide⟩).Fingerprint.expr⟩ =
      (false, "") ∧
    (knownProviders.get ⟨40, by decide⟩).Name = "Tictail" ∧
    checkSubdomainTakeover ⟨(knownProviders.get ⟨40, by decide⟩).Fingerprint.expr⟩ =
      (true, "Heroku") ∧
    (knownProviders.get ⟨45, by decide⟩).Name = "Wordpress" ∧
    checkSubdomainTakeover ⟨(knownProviders.get ⟨45, by decide⟩).Fingerprint.expr⟩ =
      (true, "WordPress.com") := by
  decide!

/-- C2, amended: for every entry of `knownProviders` other than Tilda, Tumblr, Hatena
Blog, Tictail and Wordpress, a body equal to the fingerprint text is reported as that
provider, and so is every body that contains the fingerprint text and that no earlier
entry of the table matches. -/
theorem fingerprint_text_identifies (i : Nat) (h : i < knownProviders.length)
    (hkept : (knownProviders.get ⟨i, h⟩).Name ∉
      ["Tilda", "Tumblr", "Hatena Blog", "Tictail", "Wordpress"]) :
    checkSubdomainTakeover ⟨(knownProviders.get ⟨i, h⟩).Fingerprint.expr⟩ =
      (true, (knownProviders.get ⟨i, h⟩).Name) ∧
    ∀ response : Response,
      (knownProviders.get ⟨i, h⟩).Fingerprint.expr.data <:+: response.Body.data →
      (∀ j, ∀ hj : j < i,
        (knownProviders.get ⟨j, Nat.lt_trans hj h⟩).Fingerprint.Match response.Body = false) →
      (knownProviders.get ⟨i, h⟩).Fingerprint.Match response.Body = true ∧
      checkSubdomainTakeover response = (true, (knownProviders.get ⟨i, h⟩).Name) := by
  refine ⟨own_text_reported i h hkept, ?_⟩
  intro response htext hfirst
  have hm : (knownProviders.get ⟨i, h⟩).Fingerprint.Match response.Body = true :=
    search_of_infix (matches_own_text i h hkept) htext
  refine ⟨hm, ?_⟩
  rcases rangeProviders_spec knownProviders response.Body with
    ⟨k, hk, hmk, hbefore, hres⟩ | ⟨hnone, _⟩
  · have hki : k = i := by
      rcases Nat.lt_trichotomy k i with hlt | heq | hgt
      · rw [hfirst k hlt] at hmk; exact absurd hmk (by decide)
      · exact heq
      · rw [hbefore i hgt] at hm; exact absurd hm (by decide)
    subst hki
    exact hres
  · rw [hnone _ (List.get_mem knownProviders i h)] at hm
    exact absurd hm (by decide)

/-- The amended C2 at the Cloudflare entry. -/
theorem fingerprint_text_identifies_witness :
    (knownProviders.get ⟨12, by decide⟩).Name ∉
      ["Tilda", "Tumblr", "Hatena Blog", "Tictail", "Wordpress"] ∧
    checkSubdomainTakeover ⟨(knownProviders.get ⟨12, by decide⟩).Fingerprint.expr⟩ =
      (true, "Cloudflare") :=
  ⟨by decide, (fingerprint_text_identifies 12 (by decide) (by decide)).1⟩

/-! ## One scan -/

/-- A scan whose lookup fails. -/
theorem scanSubdomain_of_resolve_error {net : Net} {noColor : Bool} {subdomain err : String}
    (hresolve : net.LookupIPAddr subdomain = .error err) :
    scanSubdomain net noColor subdomain =
      [Event.LookupIPAddr subdomain,
        Event.Println (fmt.Sprintln ["Error resolving subdomain:", err]), Event.Done] := by
  simp [scanSubdomain, resolveSubdomain, hresolve]

/-- A scan whose lookup succeeds and whose request fails. -/
theorem scanSubdomain_of_request_error {net : Net} {noColor : Bool} {subdomain err : String}
    {ips : String × List String} (hresolve : net.LookupIPAddr subdomain = .ok ips)
    (hfetch : net.Get ("http://" ++ subdomain) = .error err) :
    scanSubdomain net noColor subdomain =
      [Event.LookupIPAddr subdomain, Event.Get ("http://" ++ subdomain),
        Event.Println (fmt.Sprintln ["Error sending request:", err]), Event.Done] := by
  simp [scanSubdomain, resolveSubdomain, sendRequest, hresolve, hfetch]

/-- A scan that reaches the matcher and finds a provider. -/
theorem scanSubdomain_of_takeover {net : Net} {noColor : Bool} {subdomain provider : String}
    {ips : String × List String} {response : Response}
    (hresolve : net.LookupIPAddr subdomain = .ok ips)
    (hfetch : net.Get ("http://" ++ subdomain) = .ok response)
    (hmatch : checkSubdomainTakeover response = (true, provider)) :
    scanSubdomain net noColor subdomain =
      [Event.LookupIPAddr subdomain, Event.Get ("http://" ++ subdomain),
        Event.Println (fmt.Sprintln [color.RedString noColor "Subdomain takeover detected:",
          subdomain, "by", provider, "at IP", ips.1]), Event.Done] := by
  simp [scanSubdomain, resolveSubdomain, sendRequest, hresolve, hfetch, hmatch]

/-- A scan that reaches the matcher and finds no provider. -/
theorem scanSubdomain_of_no_takeover {net : Net} {noColor : Bool} {subdomain : String}
    {ips : String × List String} {response : Response}
    (hresolve : net.LookupIPAddr subdomain = .ok ips)
    (hfetch : net.Get ("http://" ++ subdomain) = .ok response)
    (hmatch : (checkSubdomainTakeover response).1 = false) :
    scanSubdomain net noColor subdomain =
      [Event.LookupIPAddr subdomain, Event.Get ("http://" ++ subdomain),
        Event.Println (fmt.Sprintln [color.GreenString noColor "No takeover detected:",
          subdomain, "at IP", ips.1]), Event.Done] := by
  have hpair : checkSubdomainTakeover response = (false, (checkSubdomainTakeover response).2) := by
    rw [← hmatch]
  simp only [scanSubdomain, resolveSubdomain, sendRequest, hresolve, hfetch]
  rw [hpair]
  simp

/-- The text of a takeover line, character by character. -/
theorem takeover_line_data (noColor : Bool) (subdomain provider ip : String) :
    (fmt.Sprintln [color.RedString noColor "Subdomain takeover detected:", subdomain, "by",
        provider, "at IP", ip]).data =
      (if noColor then [] else "\x1b[31m".data) ++ "Subdomain takeover detected:".data ++
        (if noColor then [] else "\x1b[0m".data) ++ " ".data ++ subdomain.data ++
        " by ".data ++ provider.data ++ " at IP ".data ++ ip.data ++ "\n".data := by
  cases noColor <;>
    simp [fmt.Sprintln, fmt.spaced, color.RedString, color.wrap, String.data_append]

/-- The text of a no-takeover line, character by character. -/
theorem no_takeover_line_data (noColor : Bool) (subdomain ip : String) :
    (fmt.Sprintln [color.GreenString noColor "No takeover detected:", subdomain, "at IP",
        ip]).data =
      (if noColor then [] else "\x1b[32m".data) ++ "No takeover detected:".data ++
        (if noColor then [] else "\x1b[0m".data) ++ " ".data ++ subdomain.data ++
        " at IP ".data ++ ip.data ++ "\n".data := by
  cases noColor <;>
    simp [fmt.Sprintln, fmt.spaced, color.GreenString, color.wrap, String.data_append]

/-- An error line is neither a takeover line nor a no-takeover line: it starts with `E`. -/
theorem error_line_ne_result_line (what err : String) (hwhat : what.data.head? = some 'E')
    (noColor : Bool) (subdomain provider ip : String) :
    fmt.Sprintln [what, err] ≠
        fmt.Sprintln [color.RedString noColor "Subdomain takeover detected:", subdomain, "by",
          provider, "at IP", ip] ∧
      fmt.Sprintln [what, err] ≠
        fmt.Sprintln [color.GreenString noColor "No takeover detected:", subdomain, "at IP",
          ip] := by
  have hhead : (fmt.Sprintln [what, err]).data.head? = some 'E' := by
    cases hw : what.data with
    | nil => rw [hw] at hwhat; simp at hwhat
    | cons c cs =>
      rw [hw] at hwhat
      simp only [List.head?_cons, Option.some.injEq] at hwhat
      simp [fmt.Sprintln, fmt.spaced, String.data_append, hw, hwhat]
  constructor
  · intro heq
    rw [heq, takeover_line_data] at hhead
    cases noColor <;> simp at hhead
  · intro heq
    rw [heq, no_takeover_line_data] at hhead
    cases noColor <;> simp at hhead


/-- C3: when the lookup of a subdomain succeeds and the request succeeds with a body
equal to `<Code>NoSuchBucket</Code>`, `scanSubdomain` prints one line, and that line
contains "Subdomain takeover detected" and "Amazon S3". -/
theorem scanSubdomain_NoSuchBucket (net : Net) (noColor : Bool) (subdomain : String)
    (ips : String × List String) (response : Response)
    (hresolve : net.LookupIPAddr subdomain = .ok ips)
    (hfetch : net.Get ("http://" ++ subdomain) = .ok response)
    (hbody : response.Body = "<Code>NoSuchBucket</Code>") :
    ∃ line, printed (scanSubdomain net noColor subdomain) = [line] ∧
      "Subdomain takeover detected".data <:+: line.data ∧
      "Amazon S3".data <:+: line.data := by
  have hmatch : checkSubdomainTakeover response = (true, "Amazon S3") := by
    cases response with
    | mk body =>
      simp only at hbody
      subst hbody
      decide!
  refine ⟨_, by rw [scanSubdomain_of_takeover hresolve hfetch hmatch]; rfl, ?_, ?_⟩
  · rw [takeover_line_data]
    exact ⟨if noColor then [] else "\x1b[31m".data,
      ":".data ++ (if noColor then [] else "\x1b[0m".data) ++ " ".data ++ subdomain.data ++
        " by ".data ++ "Amazon S3".data ++ " at IP ".data ++ ips.1.data ++ "\n".data,
      by simp⟩
  · rw [takeover_line_data]
    exact ⟨(if noColor then [] else "\x1b[31m".data) ++ "Subdomain takeover detected:".data ++
        (if noColor then [] else "\x1b[0m".data) ++ " ".data ++ subdomain.data ++ " by ".data,
      " at IP ".data ++ ips.1.data ++ "\n".data, by simp⟩

/-- C3 on the example network, colours on. -/
theorem scanSubdomain_NoSuchBucket_witness :
    exampleNet.LookupIPAddr "bucket.example" = .ok ("192.0.2.10", []) ∧
    exampleNet.Get ("http://" ++ "bucket.example") = .ok ⟨"<Code>NoSuchBucket</Code>"⟩ ∧
    printed (scanSubdomain exampleNet false "bucket.example") =
      ["\x1b[31mSubdomain takeover detected:\x1b[0m bucket.example by Amazon S3 at IP 192.0.2.10\n"] ∧
    ∃ line, printed (scanSubdomain exampleNet false "bucket.example") = [line] ∧
      "Subdomain takeover detected".data <:+: line.data ∧
      "Amazon S3".data <:+: line.data :=
  ⟨rfl, rfl, by decide!,
    scanSubdomain_NoSuchBucket exampleNet false "bucket.example" ("192.0.2.10", [])
      ⟨"<Code>NoSuchBucket</Code>"⟩ rfl rfl rfl⟩

/-- C4: if the lookup fails, `scanSubdomain` prints exactly one line, the resolution
error line, sends no request, and prints neither a takeover nor a no-takeover line; if
the lookup succeeds and the request fails, it prints exactly one line, the request error
line, and again neither a takeover nor a no-takeover line. -/
theorem scanSubdomain_failure (net : Net) (noColor : Bool) (subdomain : String) :
    (∀ err, net.LookupIPAddr subdomain = .error err →
      scanSubdomain net noColor subdomain =
        [Event.LookupIPAddr subdomain,
          Event.Println (fmt.Sprintln ["Error resolving subdomain:", err]), Event.Done] ∧
      printed (scanSubdomain net noColor subdomain) =
        ["Error resolving subdomain:" ++ " " ++ err ++ "\n"] ∧
      (∀ url, Event.Get url ∉ scanSubdomain net noColor subdomain)) ∧
    (∀ ips err, net.LookupIPAddr subdomain = .ok ips →
      net.Get ("http://" ++ subdomain) = .error err →
      scanSubdomain net noColor subdomain =
        [Event.LookupIPAddr subdomain, Event.Get ("http://" ++ subdomain),
          Event.Println (fmt.Sprintln ["Error sending request:", err]), Event.Done] ∧
      printed (scanSubdomain net noColor subdomain) =
        ["Error sending request:" ++ " " ++ err ++ "\n"]) ∧
    ((∃ err, net.LookupIPAddr subdomain = .error err) ∨
        (∃ err, net.Get ("http://" ++ subdomain) = .error err) →
      ∀ (c : Bool) (s provider ip : String),
        fmt.Sprintln [color.RedString c "Subdomain takeover detected:", s, "by", provider,
          "at IP", ip] ∉ printed (scanSubdomain net noColor subdomain) ∧
        fmt.Sprintln [color.GreenString c "No takeover detected:", s, "at IP", ip] ∉
          printed (scanSubdomain net noColor subdomain)) := by
  refine ⟨?_, ?_, ?_⟩
  · intro err hresolve
    rw [scanSubdomain_of_resolve_error hresolve]
    exact ⟨rfl, rfl, by simp⟩
  · intro ips err hresolve hfetch
    rw [scanSubdomain_of_request_error hresolve hfetch]
    exact ⟨rfl, rfl⟩
  · intro hfail c s provider ip
    have herr : ∃ what err, what.data.head? = some 'E' ∧
        printed (scanSubdomain net noColor subdomain) = [fmt.Sprintln [what, err]] := by
      cases hresolve : net.LookupIPAddr subdomain with
      | error err =>
        exact ⟨"Error resolving subdomain:", err, by decide,
          by rw [scanSubdomain_of_resolve_error hresolve]; rfl⟩
      | ok ips =>
        rcases hfail with ⟨err, h⟩ | ⟨err, hfetch⟩
        · rw [hresolve] at h; cases h
        · exact ⟨"Error sending request:", err, by decide,
            by rw [scanSubdomain_of_request_error hresolve hfetch]; rfl⟩
    obtain ⟨what, err, hwhat, hprinted⟩ := herr
    rw [hprinted]
    have hne := error_line_ne_result_line what err hwhat c s provider ip
    simp only [List.mem_singleton]
    exact ⟨fun h => hne.1 h.symm, fun h => hne.2 h.symm⟩

/-- C4 on the example network: a host that does not resolve and a host that resolves and
refuses the connection. -/
theorem scanSubdomain_failure_witness :
    exampleNet.LookupIPAddr "gone.example" = .error "lookup gone.example: no such host" ∧
    scanSubdomain exampleNet false "gone.example" =
      [Event.LookupIPAddr "gone.example",
        Event.Println "Error resolving subdomain: lookup gone.example: no such host\n",
        Event.Done] ∧
    exampleNet.LookupIPAddr "down.example" = .ok ("192.0.2.10", []) ∧
    exampleNet.Get "http://down.example" = .error "dial tcp 192.0.2.10:80: connection refused" ∧
    scanSubdomain exampleNet false "down.example" =
      [Event.LookupIPAddr "down.example", Event.Get "http://down.example",
        Event.Println "Error sending request: dial tcp 192.0.2.10:80: connection refused\n",
        Event.Done] :=
  ⟨rfl,
    ((scanSubdomain_failure exampleNet false "gone.example").1
      "lookup gone.example: no such host" rfl).1,
    rfl, rfl,
    ((scanSubdomain_failure exampleNet false "down.example").2.1 ("192.0.2.10", [])
      "dial tcp 192.0.2.10:80: connection refused" rfl rfl).1⟩


/-- C5 as stated fails: the no-takeover line reads "No takeover detected:" with a capital
N, with colours on and off, and on both result lines the colour covers the leading phrase
only, not the whole line. -/
theorem result_line_not_as_stated :
    printed (scanSubdomain exampleNet false "ok.example") =
      ["\x1b[32mNo takeover detected:\x1b[0m ok.example at IP 192.0.2.10\n"] ∧
    printed (scanSubdomain exampleNet false "ok.example") ≠
      [color.GreenString false "no takeover detected: ok.example at IP 192.0.2.10" ++ "\n"] ∧
    printed (scanSubdomain exampleNet true "ok.example") =
      ["No takeover detected: ok.example at IP 192.0.2.10\n"] ∧
    printed (scanSubdomain exampleNet true "ok.example") ≠
      [color.GreenString true "no takeover detected: ok.example at IP 192.0.2.10" ++ "\n"] ∧
    printed (scanSubdomain exampleNet false "bucket.example") =
      ["\x1b[31mSubdomain takeover detected:\x1b[0m bucket.example by Amazon S3 at IP 192.0.2.10\n"] ∧
    printed (scanSubdomain exampleNet false "bucket.example") ≠
      [color.RedString false
        "Subdomain takeover detected: bucket.example by Amazon S3 at IP 192.0.2.10" ++ "\n"] := by
  decide!

/-- C5, amended: when the lookup returns the address `A` and the request succeeds,
`scanSubdomain` prints exactly one line: if the matcher returns `(true, P)`, the phrase
"Subdomain takeover detected:" in red followed by " <subdomain> by <P> at IP <A>",
otherwise the phrase "No takeover detected:" in green followed by
" <subdomain> at IP <A>". -/
theorem scanSubdomain_result_line (net : Net) (noColor : Bool) (subdomain : String)
    (ips : String × List String) (response : Response)
    (hresolve : net.LookupIPAddr subdomain = .ok ips)
    (hfetch : net.Get ("http://" ++ subdomain) = .ok response) :
    ∃ line, printed (scanSubdomain net noColor subdomain) = [line] ∧
      (∀ provider, checkSubdomainTakeover response = (true, provider) →
        line = fmt.Sprintln [color.RedString noColor "Subdomain takeover detected:",
          subdomain, "by", provider, "at IP", ips.1] ∧
        line.data =
          (if noColor then [] else "\x1b[31m".data) ++ "Subdomain takeover detected:".data ++
            (if noColor then [] else "\x1b[0m".data) ++ " ".data ++ subdomain.data ++
            " by ".data ++ provider.data ++ " at IP ".data ++ ips.1.data ++ "\n".data) ∧
      ((checkSubdomainTakeover response).1 = false →
        line = fmt.Sprintln [color.GreenString noColor "No takeover detected:", subdomain,
          "at IP", ips.1] ∧
        line.data =
          (if noColor then [] else "\x1b[32m".data) ++ "No takeover detected:".data ++
            (if noColor then [] else "\x1b[0m".data) ++ " ".data ++ subdomain.data ++
            " at IP ".data ++ ips.1.data ++ "\n".data) := by
  cases hm : checkSubdomainTakeover response with
  | mk takeover name =>
    cases takeover with
    | true =>
      refine ⟨_, by rw [scanSubdomain_of_takeover hresolve hfetch hm]; rfl, ?_, ?_⟩
      · intro provider hp
        simp only [Prod.mk.injEq, true_and] at hp
        subst hp
        exact ⟨rfl, takeover_line_data _ _ _ _⟩
      · intro h; simp at h
    | false =>
      refine ⟨_, by rw [scanSubdomain_of_no_takeover hresolve hfetch (by rw [hm])]; rfl, ?_, ?_⟩
      · intro provider hp; simp at hp
      · intro _
        exact ⟨rfl, no_takeover_line_data _ _ _⟩

/-- The amended C5 on the example network. -/
theorem scanSubdomain_result_line_witness :
    exampleNet.LookupIPAddr "bucket.example" = .ok ("192.0.2.10", []) ∧
    exampleNet.Get ("http://" ++ "bucket.example") = .ok ⟨"<Code>NoSuchBucket</Code>"⟩ ∧
    ∃ line, printed (scanSubdomain exampleNet true "bucket.example") = [line] ∧
      (∀ provider, checkSubdomainTakeover ⟨"<Code>NoSuchBucket</Code>"⟩ = (true, provider) →
        line = fmt.Sprintln [color.RedString true "Subdomain takeover detected:",
          "bucket.example", "by", provider, "at IP", "192.0.2.10"] ∧
        line.data =
          (if true then [] else "\x1b[31m".data) ++ "Subdomain takeover detected:".data ++
            (if true then [] else "\x1b[0m".data) ++ " ".data ++ "bucket.example".data ++
            " by ".data ++ provider.data ++ " at IP ".data ++ "192.0.2.10".data ++ "\n".data) ∧
      ((checkSubdomainTakeover ⟨"<Code>NoSuchBucket</Code>"⟩).1 = false →
        line = fmt.Sprintln [color.GreenString true "No takeover detected:", "bucket.example",
          "at IP", "192.0.2.10"] ∧
        line.data =
          (if true then [] else "\x1b[32m".data) ++ "No takeover detected:".data ++
            (if true then [] else "\x1b[0m".data) ++ " ".data ++ "bucket.example".data ++
            " at IP ".data ++ "192.0.2.10".data ++ "\n".data) :=
  ⟨rfl, rfl,
    scanSubdomain_result_line exampleNet true "bucket.example" ("192.0.2.10", [])
      ⟨"<Code>NoSuchBucket</Code>"⟩ rfl rfl⟩

/-! ## The driver -/

/-- C7: if reading standard input ends with an error, `main` writes the error to standard
error, exits with code 1 and starts no scan, whatever lines were read before the error;
if reading ends without error, the exit code is not 1. -/
theorem main_read_error (lines : List String) :
    (∀ err, main ⟨lines, some err⟩ =
      { stderr := "Error reading subdomains: " ++ err ++ "\n", exitCode := 1, launched := [] }) ∧
    (main ⟨lines, none⟩).exitCode ≠ 1 := by
  refine ⟨fun err => rfl, ?_⟩
  show (0 : Nat) ≠ 1
  decide

end subdmtakeover

namespace strings

theorem head_dropWhile {p : Char → Bool} {l : List Char} {c : Char}
    (h : (l.dropWhile p).head? = some c) : p c = false := by
  induction l with
  | nil => simp at h
  | cons d l ih =>
    cases hd : p d with
    | true => rw [List.dropWhile_cons_of_pos hd] at h; exact ih h
    | false =>
      rw [List.dropWhile_cons_of_neg (by simp [hd])] at h
      simp only [List.head?_cons, Option.some.injEq] at h
      rw [← h]; exact hd

theorem head_of_initial {r m : List Char} {c : Char} (hpre : r <+: m)
    (h : r.head? = some c) : m.head? = some c := by
  obtain ⟨t, rfl⟩ := hpre
  cases r with
  | nil => simp at h
  | cons d r => simpa using h

/-- The trimmed text is a prefix of the text without its leading white space. -/
theorem TrimSpace_initial (s : String) :
    (TrimSpace s).data <+: s.data.dropWhile unicode.IsSpace := by
  have hsuffix : (s.data.dropWhile unicode.IsSpace).reverse.dropWhile unicode.IsSpace <:+
      (s.data.dropWhile unicode.IsSpace).reverse := List.dropWhile_suffix _
  have hprefix := List.reverse_prefix.mpr hsuffix
  rw [List.reverse_reverse] at hprefix
  exact hprefix

/-- No white space in front of a trimmed text. -/
theorem TrimSpace_head (s : String) (c : Char) (h : (TrimSpace s).data.head? = some c) :
    unicode.IsSpace c = false :=
  head_dropWhile (head_of_initial (TrimSpace_initial s) h)

/-- No white space at the end of a trimmed text. -/
theorem TrimSpace_getLast (s : String) (c : Char) (h : (TrimSpace s).data.getLast? = some c) :
    unicode.IsSpace c = false := by
  have h2 : ((s.data.dropWhile unicode.IsSpace).reverse.dropWhile unicode.IsSpace).head? =
      some c := by
    rw [← List.getLast?_reverse]; exact h
  exact head_dropWhile h2

/-- A text trims to the empty text exactly when it is white space throughout. -/
theorem TrimSpace_eq_empty (s : String) :
    TrimSpace s = "" ↔ ∀ c ∈ s.data, unicode.IsSpace c = true := by
  constructor
  · intro h
    have hdata : ((s.data.dropWhile unicode.IsSpace).reverse.dropWhile unicode.IsSpace).reverse
        = [] := congrArg String.data h
    rw [List.reverse_eq_nil_iff, List.dropWhile_eq_nil_iff] at hdata
    have hm : s.data.dropWhile unicode.IsSpace = [] := by
      cases hd : s.data.dropWhile unicode.IsSpace with
      | nil => rfl
      | cons d m =>
        have h1 : unicode.IsSpace d = false := head_dropWhile (by rw [hd]; rfl)
        have h2 : unicode.IsSpace d = true := hdata d (by rw [hd]; simp)
        rw [h1] at h2
        exact absurd h2 (by decide)
    exact List.dropWhile_eq_nil_iff.mp hm
  · intro h
    have hm : s.data.dropWhile unicode.IsSpace = [] := List.dropWhile_eq_nil_iff.mpr h
    apply String.ext
    show ((s.data.dropWhile unicode.IsSpace).reverse.dropWhile unicode.IsSpace).reverse = []
    rw [hm]
    rfl

end strings

namespace subdmtakeover

open regexp regexp.Pattern

/-- The reading loop, started from any list. -/
theorem foldl_readSubdomains (lines acc : List String) :
    lines.foldl (fun subdomains line =>
      let subdomain := strings.TrimSpace line
      if subdomain != "" then subdomains ++ [subdomain] else subdomains) acc =
    acc ++ (lines.map strings.TrimSpace).filter fun s => s != "" := by
  induction lines generalizing acc with
  | nil => simp
  | cons line lines ih =>
    simp only [List.foldl_cons, List.map_cons, ih]
    cases h : strings.TrimSpace line != "" with
    | true => simp [List.filter, h]
    | false => simp [List.filter, h]

/-- The reading loop of `main` trims every line and keeps the non-empty results. -/
theorem readSubdomains_eq (lines : List String) :
    readSubdomains lines = (lines.map strings.TrimSpace).filter fun s => s != "" := by
  unfold readSubdomains
  rw [foldl_readSubdomains]
  rfl

/-- C6: when the input lines are read without error, the subdomains `main` starts a scan
for are exactly the input lines with leading and trailing white space trimmed and the
lines that are empty after trimming removed, in input order; their number is the number
of lines that are not white space throughout, no scanned subdomain is empty or starts or
ends with white space, and lines of white space only start no scan. -/
theorem main_launches_trimmed_nonblank (lines : List String) :
    (main ⟨lines, none⟩).launched =
      (lines.map strings.TrimSpace).filter (fun s => s != "") ∧
    (main ⟨lines, none⟩).launched.length =
      lines.countP (fun line => !(line.data.all unicode.IsSpace)) ∧
    (∀ s ∈ (main ⟨lines, none⟩).launched,
      s ≠ "" ∧
      (∀ c, s.data.head? = some c → unicode.IsSpace c = false) ∧
      (∀ c, s.data.getLast? = some c → unicode.IsSpace c = false)) ∧
    ((∀ line ∈ lines, ∀ c ∈ line.data, unicode.IsSpace c = true) →
      (main ⟨lines, none⟩).launched = []) := by
  have hlaunched : (main ⟨lines, none⟩).launched =
      (lines.map strings.TrimSpace).filter (fun s => s != "") := readSubdomains_eq lines
  refine ⟨hlaunched, ?_, ?_, ?_⟩
  · rw [hlaunched, ← List.countP_eq_length_filter, List.countP_map]
    apply List.countP_congr
    intro line _
    simp only [Function.comp, bne_iff_ne, ne_eq, strings.TrimSpace_eq_empty, Bool.not_eq_true',
      List.all_eq_true]
    constructor
    · intro h
      cases hall : line.data.all unicode.IsSpace with
      | false => rfl
      | true => exact absurd (List.all_eq_true.mp hall) h
    · intro h hall
      rw [List.all_eq_true.mpr hall] at h
      exact absurd h (by decide)
  · intro s hs
    rw [hlaunched, List.mem_filter, List.mem_map] at hs
    obtain ⟨⟨line, _, rfl⟩, hne⟩ := hs
    exact ⟨by simpa using hne, strings.TrimSpace_head line, strings.TrimSpace_getLast line⟩
  · intro hblank
    rw [hlaunched, List.filter_eq_nil_iff]
    intro s hs
    rw [List.mem_map] at hs
    obtain ⟨line, hline, rfl⟩ := hs
    simp [(strings.TrimSpace_eq_empty line).mpr (hblank line hline)]

/-- C6 on five input lines, two of them blank. -/
theorem main_launches_trimmed_nonblank_witness :
    (main ⟨["  a.example.com", "", "b.example.com\t ", " \t", "c.example.com\r"],
      none⟩).launched = ["a.example.com", "b.example.com", "c.example.com"] ∧
    ((∀ line ∈ ["", " \t", "  "], ∀ c ∈ line.data, unicode.IsSpace c = true) →
      (main ⟨["", " \t", "  "], none⟩).launched = []) :=
  ⟨by decide, (main_launches_trimmed_nonblank ["", " \t", "  "]).2.2.2⟩

/-! ## The wait barrier -/

/-- Every scan calls `wg.Done()` exactly once, as its last event. -/
theorem scanSubdomain_done (net : Net) (noColor : Bool) (subdomain : String) :
    (scanSubdomain net noColor subdomain).count Event.Done = 1 ∧
    (scanSubdomain net noColor subdomain).getLast? = some Event.Done := by
  cases hresolve : net.LookupIPAddr subdomain with
  | error err =>
    rw [scanSubdomain_of_resolve_error hresolve]
    exact ⟨by simp [List.count_cons], rfl⟩
  | ok ips =>
    cases hfetch : net.Get ("http://" ++ subdomain) with
    | error err =>
      rw [scanSubdomain_of_request_error hresolve hfetch]
      exact ⟨by simp [List.count_cons], rfl⟩
    | ok response =>
      cases hm : checkSubdomainTakeover response with
      | mk takeover name =>
        cases takeover with
        | true =>
          rw [scanSubdomain_of_takeover hresolve hfetch hm]
          exact ⟨by simp [List.count_cons], rfl⟩
        | false =>
          rw [scanSubdomain_of_no_takeover hresolve hfetch (by rw [hm])]
          exact ⟨by simp [List.count_cons], rfl⟩

theorem pendingDone_append (tasks : List (List Event)) (events : List Event) :
    pendingDone (tasks ++ [events]) = pendingDone tasks + events.count Event.Done := by
  simp [pendingDone]

theorem pendingDone_set {tasks : List (List Event)} {i : Nat} {event : Event}
    {rest : List Event} (h : tasks[i]? = some (event :: rest)) :
    pendingDone tasks =
      pendingDone (tasks.set i rest) + (if event = Event.Done then 1 else 0) := by
  induction tasks generalizing i with
  | nil => simp at h
  | cons t ts ih =>
    cases i with
    | zero =>
      simp only [List.getElem?_cons_zero, Option.some.injEq] at h
      subst h
      by_cases he : event = Event.Done
      · simp [pendingDone, he]; omega
      · have he2 : ¬ (event == Event.Done) = true := by simpa using he
        simp [pendingDone, he, List.count_cons, he2]
    | succ i =>
      simp only [List.getElem?_cons_succ] at h
      have := ih h
      simp only [pendingDone, List.set_cons_succ, List.map_cons, List.sum_cons] at this ⊢
      omega

theorem pendingDone_eq_zero {tasks : List (List Event)}
    (hends : ∀ events ∈ tasks, EndsWithDone events) (h : pendingDone tasks = 0) :
    ∀ events ∈ tasks, events = [] := by
  intro events hmem
  rcases hends events hmem with hnil | hlast
  · exact hnil
  · have hin : Event.Done ∈ events := List.mem_of_getLast?_eq_some hlast
    have hpos : 0 < events.count Event.Done := List.count_pos_iff.mpr hin
    have hle : events.count Event.Done ≤ pendingDone tasks := by
      unfold pendingDone
      exact List.le_sum_of_mem (List.mem_map_of_mem _ hmem)
    omega

theorem pendingDone_of_all_nil {tasks : List (List Event)}
    (h : ∀ events ∈ tasks, events = []) : pendingDone tasks = 0 := by
  induction tasks with
  | nil => rfl
  | cons t ts ih =>
    have ht : t = [] := h t (List.mem_cons_self _ _)
    have := ih fun e he => h e (List.mem_cons_of_mem _ he)
    simp only [pendingDone, List.map_cons, List.sum_cons] at this ⊢
    rw [ht]
    simpa using this

theorem invariant_start (subdomains : List String) : Invariant subdomains Machine.start :=
  ⟨by simp [Machine.start], rfl, rfl⟩

theorem endsWithDone_tail {event : Event} {rest : List Event}
    (h : EndsWithDone (event :: rest)) : EndsWithDone rest := by
  cases rest with
  | nil => exact Or.inl rfl
  | cons e es =>
    rcases h with h | h
    · cases h
    · right
      rw [List.getLast?_cons_cons] at h
      exact h

theorem invariant_step {net : Net} {noColor : Bool} {subdomains : List String}
    {m next : Machine} {turn : Turn} (hinv : Invariant subdomains m)
    (hstep : step net noColor subdomains m turn = some next) : Invariant subdomains next := by
  obtain ⟨hends, hmain⟩ := hinv
  cases turn with
  | main =>
    cases hm : m.main with
    | add =>
      simp only [step, hm, Option.some.injEq] at hstep
      subst hstep
      rw [hm] at hmain
      refine ⟨hends, ?_⟩
      simp only [hmain.2, List.length_nil, pendingDone, List.map_nil, List.sum_nil, hmain.1]
      constructor <;> simp
    | go rest =>
      rw [hm] at hmain
      cases rest with
      | nil =>
        simp only [step, hm, Option.some.injEq] at hstep
        subst hstep
        refine ⟨hends, ?_⟩
        simp only [List.length_nil] at hmain
        exact ⟨by simpa using hmain.1, by simpa using hmain.2⟩
      | cons subdomain rest =>
        simp only [step, hm, Option.some.injEq] at hstep
        subst hstep
        refine ⟨?_, ?_⟩
        · intro events hmem
          rcases List.mem_append.mp hmem with h | h
          · exact hends events h
          · rw [List.mem_singleton.mp h]
            exact Or.inr (scanSubdomain_done net noColor subdomain).2
        · simp only [List.length_append, List.length_cons, List.length_nil,
            pendingDone_append, (scanSubdomain_done net noColor subdomain).1] at hmain ⊢
          constructor
          · omega
          · have := hmain.2; push_cast at this ⊢; omega
    | wait =>
      rw [hm] at hmain
      by_cases hzero : m.counter = 0
      · simp only [step, hm, hzero, if_true, Option.some.injEq] at hstep
        subst hstep
        have h2 := hmain.2
        rw [hzero] at h2
        exact ⟨hends, hmain.1, h2, rfl⟩
      · simp [step, hm, hzero] at hstep
    | returned => simp [step, hm] at hstep
  | task i =>
    cases hget : m.tasks[i]? with
    | none => simp [step, hget] at hstep
    | some events =>
      cases events with
      | nil => simp [step, hget] at hstep
      | cons event rest =>
        simp only [step, hget, Option.some.injEq] at hstep
        subst hstep
        have hcount := pendingDone_set hget
        have hmem : (event :: rest) ∈ m.tasks := List.getElem?_mem hget
        refine ⟨?_, ?_⟩
        · intro events hev
          rcases List.mem_or_eq_of_mem_set hev with h | h
          · exact hends events h
          · rw [h]; exact endsWithDone_tail (hends _ hmem)
        · show match m.main with
            | MainAt.add => _
            | MainAt.go rest => _
            | MainAt.wait => _
            | MainAt.returned => _
          cases hm : m.main with
          | add =>
            rw [hm] at hmain
            rw [hmain.2] at hget
            simp at hget
          | go rest2 =>
            rw [hm] at hmain
            simp only [List.length_set]
            refine ⟨hmain.1, ?_⟩
            have := hmain.2
            by_cases he : event = Event.Done
            · simp only [he, if_true] at hcount ⊢; omega
            · simp only [he, if_false] at hcount ⊢; omega
          | wait =>
            rw [hm] at hmain
            simp only [List.length_set]
            refine ⟨hmain.1, ?_⟩
            have := hmain.2
            by_cases he : event = Event.Done
            · simp only [he, if_true] at hcount ⊢; omega
            · simp only [he, if_false] at hcount ⊢; omega
          | returned =>
            rw [hm] at hmain
            have hzero : pendingDone m.tasks = 0 := by
              have h1 := hmain.2.1; have h2 := hmain.2.2; omega
            have := pendingDone_eq_zero hends hzero _ hmem
            cases this

theorem invariant_run {net : Net} {noColor : Bool} {subdomains : List String}
    (schedule : List Turn) {m final : Machine} (hinv : Invariant subdomains m)
    (hrun : run net noColor subdomains m schedule = some final) :
    Invariant subdomains final := by
  induction schedule generalizing m with
  | nil =>
    simp only [run, Option.some.injEq] at hrun
    subst hrun
    exact hinv
  | cons turn turns ih =>
    cases hstep : step net noColor subdomains m turn with
    | none => simp [run, hstep] at hrun
    | some next =>
      simp only [run, hstep] at hrun
      exact ih (invariant_step hinv hstep) hrun

theorem pendingDone_pos {tasks : List (List Event)} (h : pendingDone tasks ≠ 0) :
    ∃ event rest, (event :: rest) ∈ tasks := by
  by_contra hnone
  apply h
  apply pendingDone_of_all_nil
  intro events hmem
  cases events with
  | nil => rfl
  | cons event rest => exact absurd ⟨event, rest, hmem⟩ hnone

/-- Before `main` has passed `wg.Wait()` some goroutine can always move. -/
theorem some_turn_enabled {net : Net} {noColor : Bool} {subdomains : List String}
    {m : Machine} (hinv : Invariant subdomains m) (hmain : m.main ≠ MainAt.returned) :
    ∃ turn next, step net noColor subdomains m turn = some next := by
  cases hm : m.main with
  | add =>
    exact ⟨Turn.main, Option.isSome_iff_exists.mp (by simp [step, hm])⟩
  | go rest =>
    cases rest with
    | nil => exact ⟨Turn.main, Option.isSome_iff_exists.mp (by simp [step, hm])⟩
    | cons subdomain rest =>
      exact ⟨Turn.main, Option.isSome_iff_exists.mp (by simp [step, hm])⟩
  | wait =>
    by_cases hzero : m.counter = 0
    · exact ⟨Turn.main, Option.isSome_iff_exists.mp (by simp [step, hm, hzero])⟩
    · have hcount := hinv.2
      rw [hm] at hcount
      have hpending : pendingDone m.tasks ≠ 0 := by
        intro h; apply hzero; rw [hcount.2, h]; rfl
      obtain ⟨event, rest, hmem⟩ := pendingDone_pos hpending
      obtain ⟨i, hi⟩ := List.mem_iff_getElem?.mp hmem
      exact ⟨Turn.task i, Option.isSome_iff_exists.mp (by simp [step, hi])⟩
  | returned => exact absurd hm hmain

/-- C9: under every schedule, `main` is past `wg.Wait()` only when all N scans have been
started and have finished.  The counter is set to N by `wg.Add` while no scan has been
started, every scan calls `wg.Done()` exactly once, as its last event on each of its
paths, and after `wg.Add` the counter is zero exactly when all N scans are done.  Until
`main` is past `wg.Wait()` some goroutine can move, so the barrier does not hold `main`
for ever. -/
theorem wait_returns_after_all_scans (net : Net) (noColor : Bool) (subdomains : List String)
    (schedule : List Turn) (m : Machine)
    (hrun : run net noColor subdomains Machine.start schedule = some m) :
    (m.main = MainAt.returned →
      m.tasks.length = subdomains.length ∧ ∀ events ∈ m.tasks, events = []) ∧
    (m.main = MainAt.add → m.tasks = [] ∧
      step net noColor subdomains m Turn.main =
        some { m with main := MainAt.go subdomains, counter := subdomains.length }) ∧
    (∀ subdomain, (scanSubdomain net noColor subdomain).count Event.Done = 1 ∧
      (scanSubdomain net noColor subdomain).getLast? = some Event.Done) ∧
    (m.main ≠ MainAt.add →
      (m.counter = 0 ↔
        m.tasks.length = subdomains.length ∧ ∀ events ∈ m.tasks, events = [])) ∧
    (m.main ≠ MainAt.returned →
      ∃ turn next, step net noColor subdomains m turn = some next) := by
  have hinv := invariant_run schedule (invariant_start subdomains) hrun
  have hends := hinv.1
  have hmain := hinv.2
  refine ⟨?_, ?_, scanSubdomain_done net noColor, ?_, some_turn_enabled hinv⟩
  · intro hret
    rw [hret] at hmain
    refine ⟨hmain.1, pendingDone_eq_zero hends ?_⟩
    have h1 := hmain.2.1; have h2 := hmain.2.2; omega
  · intro hadd
    rw [hadd] at hmain
    refine ⟨hmain.2, ?_⟩
    simp [step, hadd, hmain.1]
  · intro hne
    cases hm : m.main with
    | add => exact absurd hm hne
    | go rest =>
      rw [hm] at hmain
      constructor
      · intro hzero
        have h2 := hmain.2
        have hrest : rest.length = 0 := by omega
        have hpend : pendingDone m.tasks = 0 := by omega
        exact ⟨by have := hmain.1; omega, pendingDone_eq_zero hends hpend⟩
      · rintro ⟨hlen, hall⟩
        have := pendingDone_of_all_nil hall
        have h1 := hmain.1; have h2 := hmain.2
        omega
    | wait =>
      rw [hm] at hmain
      constructor
      · intro hzero
        have h2 := hmain.2
        exact ⟨hmain.1, pendingDone_eq_zero hends (by omega)⟩
      · rintro ⟨_, hall⟩
        have := pendingDone_of_all_nil hall
        have h2 := hmain.2
        omega
    | returned =>
      rw [hm] at hmain
      constructor
      · intro hzero
        have h2 := hmain.2.1
        exact ⟨hmain.1, pendingDone_eq_zero hends (by omega)⟩
      · intro _; exact hmain.2.2

/-- C9 on the example network with two subdomains: a schedule that interleaves the two
scans reaches the end of `main`, and `main` cannot pass `wg.Wait()` while the second scan
has its `wg.Done()` still to make. -/
theorem wait_returns_after_all_scans_witness :
    run exampleNet false ["gone.example", "bucket.example"] Machine.start
        [Turn.main, Turn.main, Turn.task 0, Turn.main, Turn.main, Turn.task 1, Turn.task 0,
          Turn.task 1, Turn.task 1, Turn.task 0, Turn.task 1, Turn.main] =
      some { main := MainAt.returned, counter := 0, tasks := [[], []] } ∧
    run exampleNet false ["gone.example", "bucket.example"] Machine.start
        [Turn.main, Turn.main, Turn.task 0, Turn.main, Turn.main, Turn.task 1, Turn.task 0,
          Turn.task 1, Turn.task 1, Turn.task 0] =
      some { main := MainAt.wait, counter := 1, tasks := [[], [Event.Done]] } ∧
    run exampleNet false ["gone.example", "bucket.example"] Machine.start
        [Turn.main, Turn.main, Turn.task 0, Turn.main, Turn.main, Turn.task 1, Turn.task 0,
          Turn.task 1, Turn.task 1, Turn.task 0, Turn.main] = none ∧
    (({ main := MainAt.returned, counter := 0, tasks := [[], []] } : Machine).main =
        MainAt.returned →
      ({ main := MainAt.returned, counter := 0, tasks := [[], []] } : Machine).tasks.length =
          ["gone.example", "bucket.example"].length ∧
        ∀ events ∈ ({ main := MainAt.returned, counter := 0, tasks := [[], []] } : Machine).tasks,
          events = []) :=
  ⟨by decide!, by decide!, by decide!,
    (wait_returns_after_all_scans exampleNet false ["gone.example", "bucket.example"]
      [Turn.main, Turn.main, Turn.task 0, Turn.main, Turn.main, Turn.task 1, Turn.task 0,
        Turn.task 1, Turn.task 1, Turn.task 0, Turn.task 1, Turn.main]
      { main := MainAt.returned, counter := 0, tasks := [[], []] } (by decide!)).1⟩

end subdmtakeover
